import Mathlib

set_option maxRecDepth 100000
set_option maxHeartbeats 1000000
set_option linter.unusedVariables false
set_option linter.unnecessarySimpa false
set_option linter.unreachableTactic false
set_option linter.unusedTactic false

/-!
Verification of the three-party MPC recommender-update system (sources
`src/A3-A4/common.hpp`, `pB.cpp`, `p2.cpp`, `check_correctness.cpp`).

Shallow embedding notes.
* Machine `int64_t` values are embedded as `Int`.  Every arithmetic step the
  servers, the helper and the checker perform stays congruent mod 2^64 to the
  machine value, and all properties proved are either exact small-range facts
  or congruences mod 2^32 / 2^64, so the unwrapped `Int` embedding is faithful
  for all of them.
* Machine `uint64_t` seeds are embedded as `Nat`; the `(int64_t)` cast of a
  seed is the explicit function `i64ofU64`.
* The PRG of `common.hpp` (`std::mt19937` seeded with the node seed, first
  four outputs) is embedded bit-exactly below as `mt19937_outputs` / `PRG`.
* Randomness (`random_uint8`, `random_int8`, ... draws) becomes explicit
  function arguments.
* Networking moves deterministic values between the two servers, so the
  two-server protocol is embedded as one joint function computing both
  servers' results; the send/receive order on the peer link is embedded
  separately as action traces for the choreography claim.
-/

/-! ### Vector helpers (`common.hpp` lines 222-244)

`vec_add`, `vec_sub` and `vec_dot_product` iterate over `a.size()` elements;
all call sites use equal-length vectors, which the theorems assume where
needed.  `zipWith` restricted to equal lengths matches the source loops. -/

def vec_add (a b : List Int) : List Int := List.zipWith (· + ·) a b

def vec_sub (a b : List Int) : List Int := List.zipWith (· - ·) a b

def vec_dot_product (a b : List Int) : Int := (List.zipWith (· * ·) a b).sum

def vec_scalar_mul (a : List Int) (scalar : Int) : List Int := a.map (· * scalar)

/-! ### The PRG of `common.hpp` lines 79-87

`PRG(seed)` constructs `std::mt19937 engine(seed)` and reads four outputs:
two truncated to `uint8_t` and two reduced mod 2.  `std::mt19937` is the
standard Mersenne twister (w=32, n=624, m=397, f=1812433253); its k-th output
is the tempered word x_{624+k} of the recurrence below, with x_0 = seed mod
2^32 and x_1 .. x_623 given by the seeding recurrence. -/

def mtTemper (y : Nat) : Nat :=
  let y1 := y ^^^ (y >>> 11)
  let y2 := y1 ^^^ ((y1 <<< 7) &&& 0x9D2C5680)
  let y3 := y2 ^^^ ((y2 <<< 15) &&& 0xEFC60000)
  (y3 ^^^ (y3 >>> 18)) % 2 ^ 32

/-- Seeding state words in reverse order: `mtInitList seed i = [x_i, ..., x_0]`
    with `x_0 = seed mod 2^32`, `x_i = (1812433253*(x_{i-1} xor (x_{i-1} >> 30)) + i) mod 2^32`. -/
def mtInitList (seed : Nat) : Nat → List Nat
  | 0 => [seed % 2 ^ 32]
  | i + 1 =>
    let l := mtInitList seed i
    let prev := l.headD 0
    ((1812433253 * (prev ^^^ (prev >>> 30)) + (i + 1)) % 2 ^ 32) :: l

/-- One step of the twist recurrence, prepending `x_i` to `[x_{i-1}, ..., x_0]`:
    `x_i = x_{i-227} xor (y >> 1) xor (y odd ? 0x9908B0DF : 0)` with
    `y = (x_{i-624} and 0x80000000) or (x_{i-623} and 0x7FFFFFFF)`. -/
def mtExtend (l : List Nat) : List Nat :=
  let xk := l.getD 623 0
  let xk1 := l.getD 622 0
  let xm := l.getD 226 0
  let y := (xk &&& 0x80000000) + (xk1 &&& 0x7FFFFFFF)
  let xi := xm ^^^ (y >>> 1) ^^^ (if y % 2 = 1 then 0x9908B0DF else 0)
  (xi % 2 ^ 32) :: l

/-- First four outputs of `std::mt19937 engine(seed)`, in order. -/
def mt19937_outputs (seed : Nat) : List Nat :=
  let ext := mtExtend (mtExtend (mtExtend (mtExtend (mtInitList seed 623))))
  [mtTemper (ext.getD 3 0), mtTemper (ext.getD 2 0),
   mtTemper (ext.getD 1 0), mtTemper (ext.getD 0 0)]

/-! ### DPF data model (`common.hpp` lines 28-49) -/

structure ChildSeed where
  s_left : Nat
  s_right : Nat
  f_left : Bool
  f_right : Bool
deriving Repr, DecidableEq

structure CorrectionWord where
  scw : Nat
  fcw_0 : Bool
  fcw_1 : Bool
deriving Repr, DecidableEq

structure DPFKey where
  s_root : Nat
  f_root : Bool
  cws : List CorrectionWord
  FCW : Int
  sign : Int
deriving Repr, DecidableEq

/-- `PRG` of `common.hpp` lines 79-87: two `uint8_t`-truncated outputs and two
    parity bits of `std::mt19937 engine(seed)`. -/
def PRG (seed : Nat) : ChildSeed :=
  let o := mt19937_outputs seed
  { s_left := o.getD 0 0 % 2 ^ 8
    s_right := o.getD 1 0 % 2 ^ 8
    f_left := o.getD 2 0 % 2 = 1
    f_right := o.getD 3 0 % 2 = 1 }

/-- `ceil(log2 n)` by repeated halving; the fuel argument makes the recursion
    structural, and any `fuel ≥ n` gives the exact ceiling. -/
def clog2F : Nat → Nat → Nat
  | 0, _ => 0
  | fuel + 1, n => if n ≤ 1 then 0 else clog2F fuel ((n + 1) / 2) + 1

/-- Depth used by `generateDPF` / `evalDPF`: `ceil(log2 n)` raised to at least 1
    (the source computes the ceiling in floating point, which is exact on the
    sizes in use, and then forces `depth = 1` when it comes out 0). -/
def dpfDepth (domain_size : Nat) : Nat := max 1 (clog2F domain_size domain_size)

/-- The per-level path bits `(index >> (depth - 1 - i)) & 1` for `i = 0 .. depth-1`. -/
def pathBits (index depth : Nat) : List Bool :=
  (List.range depth).map (fun i => Nat.testBit index (depth - 1 - i))

structure GenState where
  s0 : Nat
  s1 : Nat
  f0 : Bool
  f1 : Bool
deriving Repr, DecidableEq

/-- One iteration of the key-generation loop (`common.hpp` lines 111-141),
    parameterized by the PRG; the system instantiates `prg := PRG`. -/
def genStep (prg : Nat → ChildSeed) (path_bit : Bool) (st : GenState) :
    GenState × CorrectionWord :=
  let c0 := prg st.s0
  let c1 := prg st.s1
  let cw : CorrectionWord :=
    if path_bit then
      { scw := c0.s_left ^^^ c1.s_left
        fcw_0 := c0.f_left.xor c1.f_left
        fcw_1 := (c0.f_right.xor c1.f_right).xor true }
    else
      { scw := c0.s_right ^^^ c1.s_right
        fcw_0 := (c0.f_left.xor c1.f_left).xor true
        fcw_1 := c0.f_right.xor c1.f_right }
  let s0a := if path_bit then c0.s_right else c0.s_left
  let s1a := if path_bit then c1.s_right else c1.s_left
  let f0a := if path_bit then c0.f_right else c0.f_left
  let f1a := if path_bit then c1.f_right else c1.f_left
  let fcw := if path_bit then cw.fcw_1 else cw.fcw_0
  let s0b := if st.f0 then s0a ^^^ cw.scw else s0a
  let f0b := if st.f0 then f0a.xor fcw else f0a
  let s1b := if st.f1 then s1a ^^^ cw.scw else s1a
  let f1b := if st.f1 then f1a.xor fcw else f1a
  ({ s0 := s0b, s1 := s1b, f0 := f0b, f1 := f1b }, cw)

/-- The full generation loop over the path bits, returning the final state and
    the correction words in level order (as pushed by the source). -/
def genLoop (prg : Nat → ChildSeed) : List Bool → GenState → GenState × List CorrectionWord
  | [], st => (st, [])
  | b :: bs, st =>
    let p := genStep prg b st
    let q := genLoop prg bs p.1
    (q.1, p.2 :: q.2)

/-- The `(int64_t)` cast of a `uint64_t` seed value. -/
def i64ofU64 (s : Nat) : Int :=
  if s % 2 ^ 64 < 2 ^ 63 then ((s % 2 ^ 64 : Nat) : Int) else ((s % 2 ^ 64 : Nat) : Int) - 2 ^ 64

/-- `generateDPF` of `common.hpp` lines 95-154, with the random draws
    (`random_uint8()` root seeds and `random_int8()` mask `R`) as explicit
    arguments. -/
def generateDPF (prg : Nat → ChildSeed) (index : Nat) (value : Int) (domain_size : Nat)
    (s0_init s1_init : Nat) (R : Int) : DPFKey × DPFKey :=
  let depth := dpfDepth domain_size
  let run := genLoop prg (pathBits index depth) { s0 := s0_init, s1 := s1_init, f0 := false, f1 := true }
  let stf := run.1
  let sign0 : Int := if stf.f0 then 1 else -1
  let sign1 : Int := if stf.f1 then 1 else -1
  ({ s_root := s0_init, f_root := false, cws := run.2
     FCW := R + sign0 * i64ofU64 stf.s0, sign := sign0 },
   { s_root := s1_init, f_root := true, cws := run.2
     FCW := (value - R) + sign1 * i64ofU64 stf.s1, sign := sign1 })

structure EvalState where
  s : Nat
  f : Bool
deriving Repr, DecidableEq

/-- One iteration of the evaluation loop (`common.hpp` lines 163-174). -/
def evalStep (prg : Nat → ChildSeed) (path_bit : Bool) (cw : CorrectionWord)
    (st : EvalState) : EvalState :=
  let ch := prg st.s
  let sa := if path_bit then ch.s_right else ch.s_left
  let fa := if path_bit then ch.f_right else ch.f_left
  let sb := if st.f then sa ^^^ cw.scw else sa
  let fb := if st.f then fa.xor (if path_bit then cw.fcw_1 else cw.fcw_0) else fa
  { s := sb, f := fb }

/-- The evaluation loop, consuming the key's correction words in level order
    (the source reads `key.cws[i]` at level `i`). -/
def evalLoop (prg : Nat → ChildSeed) :
    List Bool → List CorrectionWord → EvalState → EvalState
  | [], _, st => st
  | b :: bs, cws, st =>
    evalLoop prg bs cws.tail (evalStep prg b (cws.headD ⟨0, false, false⟩) st)

/-- `evalDPF` of `common.hpp` lines 156-183. -/
def evalDPF (prg : Nat → ChildSeed) (key : DPFKey) (index : Nat) (domain_size : Nat) : Int :=
  let depth := dpfDepth domain_size
  let stf := evalLoop prg (pathBits index depth) key.cws { s := key.s_root, f := key.f_root }
  let value := i64ofU64 stf.s
  (if stf.f then value + key.FCW else value) * key.sign

/-- `EvalFull` of `common.hpp` lines 185-191. -/
def EvalFull (prg : Nat → ChildSeed) (k : DPFKey) (domain_size : Nat) : List Int :=
  (List.range domain_size).map (fun i => evalDPF prg k i domain_size)

/-! ### Helper correlated randomness (`p2.cpp` lines 9-49)

The helper's `random_int8()` draws become explicit fields; the derived values
(`C` terms, complementary shares) are computed exactly as the source sends
them. -/

structure DotMaterialDraws where
  X0 : List Int
  Y0 : List Int
  X1 : List Int
  Y1 : List Int
  R : Int
deriving Repr, DecidableEq

structure SVMaterialDraws where
  A0 : Int
  A1 : Int
  B0 : List Int
  B1 : List Int
  Rv : List Int
deriving Repr, DecidableEq

/-- `generate_dot_product_material` (`p2.cpp` lines 9-29): what each server
    receives, `((X_b, Y_b, C_b))` with `C0 = <X0,Y1> + R`, `C1 = <X1,Y0> - R`. -/
def generate_dot_product_material (m : DotMaterialDraws) :
    (List Int × List Int × Int) × (List Int × List Int × Int) :=
  ((m.X0, m.Y0, vec_dot_product m.X0 m.Y1 + m.R),
   (m.X1, m.Y1, vec_dot_product m.X1 m.Y0 - m.R))

/-- `generate_scalar_vector_material` (`p2.cpp` lines 31-49):
    `C0 = Y0*A1 + Rv`, `C1 = Y1*A0 - Rv`. -/
def generate_scalar_vector_material (m : SVMaterialDraws) :
    (Int × List Int × List Int) × (Int × List Int × List Int) :=
  ((m.A0, m.B0, vec_add (vec_scalar_mul m.B0 m.A1) m.Rv),
   (m.A1, m.B1, vec_sub (vec_scalar_mul m.B1 m.A0) m.Rv))

/-! ### Server-side gadget computations (`pB.cpp` lines 39-103)

The network exchange hands each server the peer's masked values; the joint
functions below compute both servers' results, substituting the peer messages
with the values the other server computes. -/

/-- The output-share formula of `compute_secure_inner_product`
    (`pB.cpp` lines 63-64). -/
def compute_secure_inner_product (my_x my_y beaver_x beaver_y : List Int)
    (beaver_c : Int) (peer_masked_x peer_masked_y : List Int) : Int :=
  vec_dot_product my_x (vec_add my_y peer_masked_y)
    - vec_dot_product beaver_y peer_masked_x + beaver_c

/-- Both servers' `compute_secure_inner_product` results on shares
    `(x0, y0)` / `(x1, y1)` with helper draws `m`; the exchanged messages are
    the masked shares `x_b + X_b`, `y_b + Y_b` (`pB.cpp` lines 47-61). -/
def joint_inner_product (x0 y0 x1 y1 : List Int) (m : DotMaterialDraws) : Int × Int :=
  let mat := generate_dot_product_material m
  (compute_secure_inner_product x0 y0 mat.1.1 mat.1.2.1 mat.1.2.2
      (vec_add x1 m.X1) (vec_add y1 m.Y1),
   compute_secure_inner_product x1 y1 mat.2.1 mat.2.2.1 mat.2.2.2
      (vec_add x0 m.X0) (vec_add y0 m.Y0))

/-- The output formula of `compute_secure_scalar_vector_product`
    (`pB.cpp` lines 94-100). -/
def compute_secure_scalar_vector_product (scalar_share : Int) (vector_share : List Int)
    (beaver_vector beaver_result : List Int)
    (peer_masked_scalar : Int) (peer_masked_vector : List Int) : List Int :=
  vec_add
    (vec_sub (vec_scalar_mul (vec_add vector_share peer_masked_vector) scalar_share)
             (vec_scalar_mul beaver_vector peer_masked_scalar))
    beaver_result

/-- Both servers' `compute_secure_scalar_vector_product` results on shared
    scalar `a0 + a1` and shared vector `v0 + v1` (`pB.cpp` lines 69-103). -/
def joint_scalar_vector_product (a0 : Int) (v0 : List Int) (a1 : Int) (v1 : List Int)
    (m : SVMaterialDraws) : List Int × List Int :=
  let mat := generate_scalar_vector_material m
  (compute_secure_scalar_vector_product a0 v0 mat.1.2.1 mat.1.2.2
      (a1 + m.A1) (vec_add v1 m.B1),
   compute_secure_scalar_vector_product a1 v1 mat.2.2.1 mat.2.2.2
      (a0 + m.A0) (vec_add v0 m.B0))

/-! ### Oblivious lookup (`p2.cpp` lines 54-70, `pB.cpp` lines 105-149) -/

/-- The helper's one-hot vector (`p2.cpp` lines 57-58). -/
def one_hot (n idx : Nat) : List Int :=
  (List.range n).map (fun t => if t = idx then 1 else 0)

/-- `total_rotation` computation of `pB.cpp` lines 126-132; `%` on `int64_t`
    is truncated division remainder, `Int.tmod`. -/
def total_rotation (combined_offset : Int) (num_items : Nat) : Nat :=
  (if 0 ≤ combined_offset then combined_offset.tmod (num_items : Int)
   else ((num_items : Int) + combined_offset.tmod (num_items : Int)).tmod (num_items : Int)).toNat

/-- `std::rotate(v.begin(), v.begin() + mid, v.end())`: left rotation by `mid`. -/
def rotate_left (l : List Int) (mid : Nat) : List Int := l.drop mid ++ l.take mid

/-- Column `f` of the item matrix (`pB.cpp` lines 141-144). -/
def matrix_column (M : List (List Int)) (f : Nat) : List Int :=
  M.map (fun row => row.getD f 0)

/-- The helper draws consumed by one oblivious lookup
    (`p2.cpp` lines 56-74). -/
structure LookupDraws where
  random_index : Nat
  rotation_offset_share : Int
  r0_shares : List Int
  dot_mats : List DotMaterialDraws
deriving Repr, DecidableEq

/-- Both servers' `retrieve_item_profile_shares` results (`pB.cpp` lines
    105-149) on item-index shares `j0`, `j1`, with the helper material of
    `p2.cpp` lines 56-74: server 0 receives `(a0, r0)`, server 1 receives
    `(r - a0, one_hot r - r0)`; the exchanged offsets are `j_b - a_b`. -/
def retrieve_item_profile_shares_joint (j0 j1 : Int) (V0 V1 : List (List Int))
    (d : LookupDraws) : List Int × List Int :=
  let num_items := V0.length
  let feature_dim := (V0.headD []).length
  let r1_shares := vec_sub (one_hot num_items d.random_index) d.r0_shares
  let a1 : Int := (d.random_index : Int) - d.rotation_offset_share
  let off0 := j0 - d.rotation_offset_share
  let off1 := j1 - a1
  let tot := total_rotation (off0 + off1) num_items
  let sel0 := rotate_left d.r0_shares ((d.r0_shares.length - tot) % d.r0_shares.length)
  let sel1 := rotate_left r1_shares ((r1_shares.length - tot) % r1_shares.length)
  ((List.range feature_dim).map (fun f =>
      (joint_inner_product (matrix_column V0 f) sel0 (matrix_column V1 f) sel1
        (d.dot_mats.getD f ⟨[], [], [], [], 0⟩)).1),
   (List.range feature_dim).map (fun f =>
      (joint_inner_product (matrix_column V0 f) sel0 (matrix_column V1 f) sel1
        (d.dot_mats.getD f ⟨[], [], [], [], 0⟩)).2))

/-! ### The per-query protocol (`pB.cpp` lines 173-227) -/

/-- One query's worth of inputs: the query-file record produced by
    `gen_queries.cpp` (public user index, true item index `j`, server 0's
    additive share of `j`, the `generateDPF(j, 0, n)` randomness) plus the
    helper's per-query draws. -/
structure QueryDraws where
  user_index : Nat
  item_index : Nat
  item_share0 : Int
  gen_s0 : Nat
  gen_s1 : Nat
  gen_R : Int
  lookup : LookupDraws
  dot_mat : DotMaterialDraws
  sv_mat1 : SVMaterialDraws
  sv_mat2 : SVMaterialDraws
deriving Repr, DecidableEq

structure ProtocolState where
  U0 : List (List Int)
  V0 : List (List Int)
  U1 : List (List Int)
  V1 : List (List Int)
deriving Repr, DecidableEq

/-- `item_matrix[item_idx][feat_idx] += result[item_idx]` over all rows
    (`pB.cpp` lines 218-220). -/
def add_to_column (M : List (List Int)) (f : Nat) (col : List Int) : List (List Int) :=
  List.zipWith (fun row c => row.set f (row.getD f 0 + c)) M col

/-- One feature's FCW repair and item-matrix update (`pB.cpp` lines
    199-220), for both servers: each sends `update[f] - FCW`, both
    substitute the same reconstructed `adjusted_fcw` into a copy of their
    key and add the full-domain evaluation into column `f`. -/
def item_update_step (prg : Nat → ChildSeed) (num_items : Nat) (k0 k1 : DPFKey)
    (update0 update1 : List Int)
    (VV : List (List Int) × List (List Int)) (f : Nat) :
    List (List Int) × List (List Int) :=
  let adjusted_fcw := (update0.getD f 0 - k0.FCW) + (update1.getD f 0 - k1.FCW)
  (add_to_column VV.1 f (EvalFull prg { k0 with FCW := adjusted_fcw } num_items),
   add_to_column VV.2 f (EvalFull prg { k1 with FCW := adjusted_fcw } num_items))

/-- The FCW-repair and item-update loop over features (`pB.cpp` lines
    198-221), for both servers. -/
def item_update_joint (prg : Nat → ChildSeed) (num_items : Nat)
    (V0 V1 : List (List Int)) (k0 k1 : DPFKey)
    (update0 update1 : List Int) (feature_dim : Nat) :
    List (List Int) × List (List Int) :=
  (List.range feature_dim).foldl (item_update_step prg num_items k0 k1 update0 update1)
    (V0, V1)

/-- One iteration of the query loop of `execute_protocol` (`pB.cpp` lines
    173-227), joined over the two servers. -/
def protocol_query_step (prg : Nat → ChildSeed) (num_items feature_dim : Nat)
    (st : ProtocolState) (q : QueryDraws) : ProtocolState :=
  let j1 : Int := (q.item_index : Int) - q.item_share0
  let keys := generateDPF prg q.item_index 0 num_items q.gen_s0 q.gen_s1 q.gen_R
  let user_profile0 := st.U0.getD q.user_index []
  let user_profile1 := st.U1.getD q.user_index []
  let ip := retrieve_item_profile_shares_joint q.item_share0 j1 st.V0 st.V1 q.lookup
  let d := joint_inner_product user_profile0 ip.1 user_profile1 ip.2 q.dot_mat
  let scaled := joint_scalar_vector_product d.1 ip.1 d.2 ip.2 q.sv_mat1
  let U0a := st.U0.set q.user_index (vec_sub (vec_add user_profile0 ip.1) scaled.1)
  let U1a := st.U1.set q.user_index (vec_sub (vec_add user_profile1 ip.2) scaled.2)
  let upd := joint_scalar_vector_product ((0 : Int) - d.1) user_profile0
      ((1 : Int) - d.2) user_profile1 q.sv_mat2
  let VV := item_update_joint prg num_items st.V0 st.V1 keys.1 keys.2 upd.1 upd.2 feature_dim
  { U0 := U0a, V0 := VV.1, U1 := U1a, V1 := VV.2 }

/-- The whole query loop of `execute_protocol`, joined over the two servers. -/
def execute_protocol_joint (prg : Nat → ChildSeed) (num_items feature_dim : Nat)
    (st : ProtocolState) (queries : List QueryDraws) : ProtocolState :=
  queries.foldl (protocol_query_step prg num_items feature_dim) st

/-! ### Matrix persistence (`pB.cpp` lines 231-258, `common.hpp` lines 314-329) -/

/-- The `uint32_t` value printed for one `int64_t` share:
    `static_cast<uint32_t>(static_cast<int32_t>(x))`, the low 32 bits. -/
def save_share_u32 (x : Int) : Nat := (x % 2 ^ 32).toNat

/-- Loading one on-disk `uint32_t` back as an `int64_t` share:
    `static_cast<int64_t>(static_cast<int32_t>(val))`, sign extension. -/
def load_share_i64 (val : Nat) : Int :=
  if val % 2 ^ 32 < 2 ^ 31 then ((val % 2 ^ 32 : Nat) : Int)
  else ((val % 2 ^ 32 : Nat) : Int) - 2 ^ 32

def save_matrix_u32 (M : List (List Int)) : List (List Nat) :=
  M.map (fun row => row.map save_share_u32)

/-! ### The correctness checker (`check_correctness.cpp`) -/

/-- `apply_cleartext_updates` for one query (`check_correctness.cpp` lines
    109-152): `u_i += v_j * (1 - <u_i,v_j>)`, `v_j += u_i_old * (1 - <u_i,v_j>)`,
    both computed from the pre-update rows. -/
def apply_cleartext_query (UV : List (List Int) × List (List Int)) (i_idx j_idx : Nat) :
    List (List Int) × List (List Int) :=
  let ui := UV.1.getD i_idx []
  let vj := UV.2.getD j_idx []
  let delta := 1 - vec_dot_product ui vj
  (UV.1.set i_idx (vec_add ui (vec_scalar_mul vj delta)),
   UV.2.set j_idx (vec_add vj (vec_scalar_mul ui delta)))

def apply_cleartext_updates (U V : List (List Int)) (queries : List (Nat × Nat)) :
    List (List Int) × List (List Int) :=
  queries.foldl (fun UV q => apply_cleartext_query UV q.1 q.2) (U, V)

/-- `U_mpc[i][f] = U0_updated[i][f] + U1_updated[i][f]` in `uint32_t`
    (`check_correctness.cpp` lines 311-321). -/
def recombine_u32 (A B : List (List Nat)) : List (List Nat) :=
  List.zipWith (fun ra rb => List.zipWith (fun a b => (a + b) % 2 ^ 32) ra rb) A B

/-- Number of mismatching entries found by one comparison loop
    (`check_correctness.cpp` lines 338-367). -/
def count_mismatches (A B : List (List Nat)) : Nat :=
  (List.zipWith (fun ra rb =>
      (List.zipWith (fun a b : Nat => if a = b then 0 else 1) ra rb).sum) A B).sum

/-- The process exit code of the checker comparison
    (`check_correctness.cpp` line 389). -/
def checker_exit_code (U_mpc U_clear V_mpc V_clear : List (List Nat)) : Nat :=
  if count_mismatches U_mpc U_clear = 0 ∧ count_mismatches V_mpc V_clear = 0 then 0 else 1

/-- How many location-annotated diffs the checker prints: each of the two
    comparison loops prints while its own error count is below
    `MAX_ERRORS_TO_PRINT = 10` (`check_correctness.cpp` lines 335-367). -/
def printed_diff_count (U_mpc U_clear V_mpc V_clear : List (List Nat)) : Nat :=
  min (count_mismatches U_mpc U_clear) 10 + min (count_mismatches V_mpc V_clear) 10

/-! ### Peer-link choreography (`pB.cpp`, `common.hpp` lines 277-287)

Each server's sequence of send / receive actions on the server-to-server
link, per gadget, transcribed from the role-conditional branches. -/

inductive PeerAct where
  | send : PeerAct
  | recv : PeerAct
deriving Repr, DecidableEq

/-- Peer actions of `compute_secure_inner_product` (`pB.cpp` lines 51-61). -/
def inner_product_trace (role : Nat) : List PeerAct :=
  if role = 1 then [.recv, .recv, .send, .send] else [.send, .send, .recv, .recv]

/-- Peer actions of `compute_secure_scalar_vector_product`
    (`pB.cpp` lines 82-92). -/
def scalar_vector_trace (role : Nat) : List PeerAct :=
  if role = 0 then [.recv, .recv, .send, .send] else [.send, .send, .recv, .recv]

/-- The rotation-offset exchange of `retrieve_item_profile_shares`
    (`pB.cpp` lines 118-124). -/
def lookup_offset_trace (role : Nat) : List PeerAct :=
  if role = 1 then [.recv, .send] else [.send, .recv]

/-- All peer actions of one `retrieve_item_profile_shares` call:
    the offset exchange then one secure dot product per feature. -/
def retrieve_trace (role feature_dim : Nat) : List PeerAct :=
  lookup_offset_trace role ++ (List.replicate feature_dim (inner_product_trace role)).flatten

/-- One FCW-repair exchange (`pB.cpp` lines 203-210). -/
def fcw_exchange_trace (role : Nat) : List PeerAct :=
  if role = 0 then [.recv, .send] else [.send, .recv]

/-- `exchange_value` (`common.hpp` lines 277-287). -/
def exchange_value_trace (role : Nat) : List PeerAct :=
  if role = 0 then [.send, .recv] else [.recv, .send]

/-- The complementary action, pairing one server's send with the peer's
    receive. -/
def dualAct : PeerAct → PeerAct
  | .send => .recv
  | .recv => .send

/-! ### Matrix helpers for the statements -/

/-- Element-wise sum of two share matrices (the reconstruction
    `recombine_shares` of `check_correctness.cpp` lines 79-94, over `Int`). -/
def mat_add (A B : List (List Int)) : List (List Int) := List.zipWith vec_add A B

/-- `M` is an `rows × cols` matrix. -/
def IsMatrix (M : List (List Int)) (rows cols : Nat) : Prop :=
  M.length = rows ∧ ∀ row ∈ M, row.length = cols

/-- Well-formedness of one query's inputs: indices in range and all helper
    draws of the lengths the helper actually uses (`p2.cpp` lines 54-79,
    `gen_queries.cpp`). -/
def QueryOK (q : QueryDraws) (m n k : Nat) : Prop :=
  q.user_index < m ∧ q.item_index < n
  ∧ q.lookup.random_index < n ∧ q.lookup.r0_shares.length = n
  ∧ (∀ f, f < k →
      (q.lookup.dot_mats.getD f ⟨[], [], [], [], 0⟩).X0.length = n
      ∧ (q.lookup.dot_mats.getD f ⟨[], [], [], [], 0⟩).Y0.length = n
      ∧ (q.lookup.dot_mats.getD f ⟨[], [], [], [], 0⟩).X1.length = n
      ∧ (q.lookup.dot_mats.getD f ⟨[], [], [], [], 0⟩).Y1.length = n)
  ∧ q.dot_mat.X0.length = k ∧ q.dot_mat.Y0.length = k
  ∧ q.dot_mat.X1.length = k ∧ q.dot_mat.Y1.length = k
  ∧ q.sv_mat1.B0.length = k ∧ q.sv_mat1.B1.length = k ∧ q.sv_mat1.Rv.length = k
  ∧ q.sv_mat2.B0.length = k ∧ q.sv_mat2.B1.length = k ∧ q.sv_mat2.Rv.length = k

/-- A concrete well-formed protocol start: `m = 1` user, `n = 2` items,
    `k = 1` feature, shares `U0 = [[2]]`, `V0 = [[1],[3]]`, `U1 = [[1]]`,
    `V1 = [[0],[2]]`. -/
def c1State : ProtocolState := ⟨[[2]], [[1], [3]], [[1]], [[0], [2]]⟩

/-- A concrete well-formed query for `m = 1`, `n = 2`, `k = 1`: user 0,
    item 1, with explicit helper draws of the right lengths. -/
def c1Query : QueryDraws where
  user_index := 0
  item_index := 1
  item_share0 := 3
  gen_s0 := 0
  gen_s1 := 1
  gen_R := 0
  lookup :=
    { random_index := 1
      rotation_offset_share := 2
      r0_shares := [4, -1]
      dot_mats := [{ X0 := [1, 2], Y0 := [0, 1], X1 := [3, -1], Y1 := [2, 0], R := 5 }] }
  dot_mat := { X0 := [1], Y0 := [2], X1 := [0], Y1 := [1], R := 3 }
  sv_mat1 := { A0 := 2, A1 := -1, B0 := [1], B1 := [2], Rv := [0] }
  sv_mat2 := { A0 := 1, A1 := 0, B0 := [0], B1 := [1], Rv := [2] }

/-! ## Vector algebra toolkit -/

theorem vec_dot_product_nil_right (a : List Int) : vec_dot_product a [] = 0 := by
  simp [vec_dot_product]

theorem vec_dot_product_cons (x y : Int) (a b : List Int) :
    vec_dot_product (x :: a) (y :: b) = x * y + vec_dot_product a b := by
  simp [vec_dot_product]

theorem vec_dot_product_comm (a b : List Int) :
    vec_dot_product a b = vec_dot_product b a := by
  induction a generalizing b with
  | nil => cases b <;> simp [vec_dot_product]
  | cons x a ih =>
    cases b with
    | nil => simp [vec_dot_product]
    | cons y b => simp [vec_dot_product_cons, ih, Int.mul_comm]

theorem vec_dot_product_add_left (a b c : List Int) (h : a.length = b.length) :
    vec_dot_product (vec_add a b) c = vec_dot_product a c + vec_dot_product b c := by
  induction a generalizing b c with
  | nil =>
    cases b with
    | nil => simp [vec_add, vec_dot_product]
    | cons y b => simp at h
  | cons x a ih =>
    cases b with
    | nil => simp at h
    | cons y b =>
      cases c with
      | nil => simp [vec_dot_product]
      | cons z c =>
        simp only [vec_add, List.zipWith_cons_cons, vec_dot_product_cons] at *
        rw [ih b c (by simpa using h)]
        ring

theorem vec_dot_product_add_right (a b c : List Int) (h : b.length = c.length) :
    vec_dot_product a (vec_add b c) = vec_dot_product a b + vec_dot_product a c := by
  rw [vec_dot_product_comm, vec_dot_product_add_left b c a h,
    vec_dot_product_comm b a, vec_dot_product_comm c a]

theorem vec_add_length (a b : List Int) : (vec_add a b).length = min a.length b.length := by
  simp [vec_add]

/-- Joint secure dot product: the two servers' output shares sum to the
    dot product of the reconstructed vectors, for any helper draws of the
    right length. -/
theorem joint_inner_product_sum (L : Nat) (x0 y0 x1 y1 : List Int) (m : DotMaterialDraws)
    (hx0 : x0.length = L) (hx1 : x1.length = L) (hy0 : y0.length = L) (hy1 : y1.length = L)
    (hX0 : m.X0.length = L) (hY0 : m.Y0.length = L) (hX1 : m.X1.length = L)
    (hY1 : m.Y1.length = L) :
    (joint_inner_product x0 y0 x1 y1 m).1 + (joint_inner_product x0 y0 x1 y1 m).2
      = vec_dot_product (vec_add x0 x1) (vec_add y0 y1) := by
  unfold joint_inner_product generate_dot_product_material compute_secure_inner_product
  simp only
  rw [vec_dot_product_add_right x0 y0 (vec_add y1 m.Y1) (by rw [vec_add_length]; omega),
    vec_dot_product_add_right x0 y1 m.Y1 (by omega),
    vec_dot_product_add_right x1 y1 (vec_add y0 m.Y0) (by rw [vec_add_length]; omega),
    vec_dot_product_add_right x1 y0 m.Y0 (by omega),
    vec_dot_product_add_right m.Y0 x1 m.X1 (by omega),
    vec_dot_product_add_right m.Y1 x0 m.X0 (by omega),
    vec_dot_product_add_left x0 x1 (vec_add y0 y1) (by omega),
    vec_dot_product_add_right x0 y0 y1 (by omega),
    vec_dot_product_add_right x1 y0 y1 (by omega),
    vec_dot_product_comm m.Y0 x1, vec_dot_product_comm m.Y0 m.X1,
    vec_dot_product_comm m.Y1 x0, vec_dot_product_comm m.Y1 m.X0]
  ring

/-- C5: secure dot-product correctness.  For shares `x = x0 + x1`,
    `y = y0 + y1` of length `L` and helper material with
    `C0 = <X0, Y1> + R`, `C1 = <X1, Y0> - R`, the two servers' outputs
    `z_b = <x_b, y_b + peer masked y> - <Y_b, peer masked x> + C_b`
    (`pB.cpp` lines 39-67) satisfy `z0 + z1 = <x, y>`. -/
theorem compute_secure_inner_product_correct
    (L : Nat) (x0 x1 y0 y1 X0 Y0 X1 Y1 : List Int) (C0 C1 R : Int)
    (hx0 : x0.length = L) (hx1 : x1.length = L) (hy0 : y0.length = L) (hy1 : y1.length = L)
    (hX0 : X0.length = L) (hY0 : Y0.length = L) (hX1 : X1.length = L) (hY1 : Y1.length = L)
    (hC0 : C0 = vec_dot_product X0 Y1 + R) (hC1 : C1 = vec_dot_product X1 Y0 - R) :
    compute_secure_inner_product x0 y0 X0 Y0 C0 (vec_add x1 X1) (vec_add y1 Y1)
      + compute_secure_inner_product x1 y1 X1 Y1 C1 (vec_add x0 X0) (vec_add y0 Y0)
    = vec_dot_product (vec_add x0 x1) (vec_add y0 y1) := by
  subst hC0 hC1
  exact joint_inner_product_sum L x0 y0 x1 y1 ⟨X0, Y0, X1, Y1, R⟩
    hx0 hx1 hy0 hy1 hX0 hY0 hX1 hY1

/-- Witness for C5 at `L = 1`, shares `x = [3]`, `y = [7]`. -/
theorem compute_secure_inner_product_correct_witness :
    compute_secure_inner_product [1] [3] [5] [6] 49 (vec_add [2] [7]) (vec_add [4] [8])
      + compute_secure_inner_product [2] [4] [7] [8] 33 (vec_add [1] [5]) (vec_add [3] [6])
    = vec_dot_product (vec_add [1] [2]) (vec_add [3] [4]) :=
  compute_secure_inner_product_correct 1 [1] [2] [3] [4] [5] [6] [7] [8] 49 33 9
    rfl rfl rfl rfl rfl rfl rfl rfl (by decide) (by decide)

/-- Joint secure scalar-vector product: the two servers' output vectors sum
    element-wise to `(a0 + a1) * (v0 + v1)`, for any helper draws of the
    right length. -/
theorem joint_scalar_vector_product_sum (L : Nat) (a0 a1 : Int) (v0 v1 : List Int)
    (m : SVMaterialDraws) (hv0 : v0.length = L) (hv1 : v1.length = L)
    (hB0 : m.B0.length = L) (hB1 : m.B1.length = L) (hRv : m.Rv.length = L) :
    vec_add (joint_scalar_vector_product a0 v0 a1 v1 m).1
        (joint_scalar_vector_product a0 v0 a1 v1 m).2
      = vec_scalar_mul (vec_add v0 v1) (a0 + a1) := by
  unfold joint_scalar_vector_product generate_scalar_vector_material
  apply List.ext_getElem
  · simp [compute_secure_scalar_vector_product, vec_add, vec_sub, vec_scalar_mul]
    omega
  · intro i h1 h2
    simp [compute_secure_scalar_vector_product, vec_add, vec_sub, vec_scalar_mul,
      List.getElem_zipWith, List.getElem_map]
    ring

/-- C6: secure scalar-vector-product correctness.  For a shared scalar
    `α = a0 + a1`, a shared vector `v = v0 + v1` of length `L`, and helper
    material with `C0 = A1·B0 + Rv`, `C1 = A0·B1 - Rv`
    (`p2.cpp` lines 31-49), the two servers' outputs of
    `compute_secure_scalar_vector_product` (`pB.cpp` lines 69-103) sum
    element-wise to `α·v`. -/
theorem compute_secure_scalar_vector_product_correct
    (L : Nat) (a0 a1 A0 A1 : Int) (v0 v1 B0 B1 Rv C0 C1 : List Int)
    (hv0 : v0.length = L) (hv1 : v1.length = L) (hB0 : B0.length = L)
    (hB1 : B1.length = L) (hRv : Rv.length = L)
    (hC0 : C0 = vec_add (vec_scalar_mul B0 A1) Rv)
    (hC1 : C1 = vec_sub (vec_scalar_mul B1 A0) Rv) :
    vec_add
      (compute_secure_scalar_vector_product a0 v0 B0 C0 (a1 + A1) (vec_add v1 B1))
      (compute_secure_scalar_vector_product a1 v1 B1 C1 (a0 + A0) (vec_add v0 B0))
    = vec_scalar_mul (vec_add v0 v1) (a0 + a1) := by
  subst hC0 hC1
  exact joint_scalar_vector_product_sum L a0 a1 v0 v1 ⟨A0, A1, B0, B1, Rv⟩
    hv0 hv1 hB0 hB1 hRv

/-- Witness for C6 at `L = 1`, `α = 3 + 4`, `v = [5] + [6]`. -/
theorem compute_secure_scalar_vector_product_correct_witness :
    vec_add
      (compute_secure_scalar_vector_product 3 [5] [8] (vec_add (vec_scalar_mul [8] 9) [10])
        (4 + 9) (vec_add [6] [11]))
      (compute_secure_scalar_vector_product 4 [6] [11] (vec_sub (vec_scalar_mul [11] 7) [10])
        (3 + 7) (vec_add [5] [8]))
    = vec_scalar_mul (vec_add [5] [6]) (3 + 4) :=
  compute_secure_scalar_vector_product_correct 1 3 4 7 9 [5] [6] [8] [11] [10]
    (vec_add (vec_scalar_mul [8] 9) [10]) (vec_sub (vec_scalar_mul [11] 7) [10])
    rfl rfl rfl rfl rfl rfl rfl

/-! ## DPF correctness theory

The generation loop maintains the invariant that the two parties' control
flags differ; evaluating along the generation path replays the generation
states of each party; evaluating any other path makes the two parties'
states collapse to a common one.  Everything here is proved for an
arbitrary PRG, then instantiated with the source `PRG`. -/

theorem genStep_flag (prg : Nat → ChildSeed) (b : Bool) (st : GenState)
    (hf : st.f0 = !st.f1) : ((genStep prg b st).1).f0 = !((genStep prg b st).1).f1 := by
  obtain ⟨s0, s1, f0, f1⟩ := st
  simp only at hf
  subst hf
  cases b <;> cases f1 <;>
    simp only [genStep] <;>
    cases (prg s0).f_left <;> cases (prg s1).f_left <;>
    cases (prg s0).f_right <;> cases (prg s1).f_right <;> rfl

theorem genLoop_flag (prg : Nat → ChildSeed) (bs : List Bool) (st : GenState)
    (hf : st.f0 = !st.f1) : ((genLoop prg bs st).1).f0 = !((genLoop prg bs st).1).f1 := by
  induction bs generalizing st with
  | nil => simpa [genLoop] using hf
  | cons b bs ih => simpa only [genLoop] using ih _ (genStep_flag prg b st hf)

theorem evalStep_genStep_replay0 (prg : Nat → ChildSeed) (b : Bool) (st : GenState) :
    evalStep prg b (genStep prg b st).2 ⟨st.s0, st.f0⟩
      = ⟨((genStep prg b st).1).s0, ((genStep prg b st).1).f0⟩ := by
  obtain ⟨s0, s1, f0, f1⟩ := st
  cases b <;> cases f0 <;> rfl

theorem evalStep_genStep_replay1 (prg : Nat → ChildSeed) (b : Bool) (st : GenState) :
    evalStep prg b (genStep prg b st).2 ⟨st.s1, st.f1⟩
      = ⟨((genStep prg b st).1).s1, ((genStep prg b st).1).f1⟩ := by
  obtain ⟨s0, s1, f0, f1⟩ := st
  cases b <;> cases f1 <;> rfl

theorem nat_xor_left_comm (a b c : Nat) : a ^^^ (b ^^^ c) = b ^^^ (a ^^^ c) := by
  rw [← Nat.xor_assoc, Nat.xor_comm a b, Nat.xor_assoc]

theorem evalStep_genStep_offpath (prg : Nat → ChildSeed) (b : Bool) (st : GenState)
    (hf : st.f0 = !st.f1) :
    evalStep prg (!b) (genStep prg b st).2 ⟨st.s0, st.f0⟩
      = evalStep prg (!b) (genStep prg b st).2 ⟨st.s1, st.f1⟩ := by
  obtain ⟨s0, s1, f0, f1⟩ := st
  simp only at hf
  subst hf
  cases b <;> cases f1 <;>
    cases h0l : (prg s0).f_left <;> cases h1l : (prg s1).f_left <;>
    cases h0r : (prg s0).f_right <;> cases h1r : (prg s1).f_right <;>
    simp [genStep, evalStep, h0l, h1l, h0r, h1r, Nat.xor_assoc, Nat.xor_comm,
      nat_xor_left_comm, Nat.xor_self, Nat.xor_zero, Nat.zero_xor,
      Nat.xor_cancel_left, Nat.xor_cancel_right]

theorem evalLoop_genLoop_replay0 (prg : Nat → ChildSeed) (bs : List Bool) (st : GenState) :
    evalLoop prg bs (genLoop prg bs st).2 ⟨st.s0, st.f0⟩
      = ⟨((genLoop prg bs st).1).s0, ((genLoop prg bs st).1).f0⟩ := by
  induction bs generalizing st with
  | nil => simp [genLoop, evalLoop]
  | cons b bs ih =>
    simp only [genLoop, evalLoop, List.headD_cons, List.tail_cons]
    rw [evalStep_genStep_replay0]
    exact ih (genStep prg b st).1

theorem evalLoop_genLoop_replay1 (prg : Nat → ChildSeed) (bs : List Bool) (st : GenState) :
    evalLoop prg bs (genLoop prg bs st).2 ⟨st.s1, st.f1⟩
      = ⟨((genLoop prg bs st).1).s1, ((genLoop prg bs st).1).f1⟩ := by
  induction bs generalizing st with
  | nil => simp [genLoop, evalLoop]
  | cons b bs ih =>
    simp only [genLoop, evalLoop, List.headD_cons, List.tail_cons]
    rw [evalStep_genStep_replay1]
    exact ih (genStep prg b st).1

theorem evalLoop_genLoop_offpath (prg : Nat → ChildSeed) (bsJ : List Bool) :
    ∀ (bsT : List Bool), bsT.length = bsJ.length → bsT ≠ bsJ →
    ∀ (st : GenState), st.f0 = !st.f1 →
    evalLoop prg bsT (genLoop prg bsJ st).2 ⟨st.s0, st.f0⟩
      = evalLoop prg bsT (genLoop prg bsJ st).2 ⟨st.s1, st.f1⟩ := by
  induction bsJ with
  | nil =>
    intro bsT hlen hne st hf
    cases bsT with
    | nil => exact absurd rfl hne
    | cons c bsT => simp at hlen
  | cons b bsJ ih =>
    intro bsT hlen hne st hf
    cases bsT with
    | nil => simp at hlen
    | cons c bsT =>
      by_cases hcb : c = b
      · subst hcb
        simp only [genLoop, evalLoop, List.headD_cons, List.tail_cons]
        rw [evalStep_genStep_replay0, evalStep_genStep_replay1]
        exact ih bsT (by simpa using hlen) (fun hEq => hne (by rw [hEq]))
          (genStep prg c st).1 (genStep_flag prg c st hf)
      · have hcb2 : c = !b := by cases c <;> cases b <;> simp_all
        subst hcb2
        simp only [genLoop, evalLoop, List.headD_cons, List.tail_cons]
        rw [evalStep_genStep_offpath prg b st hf]

theorem le_two_pow_clog2F : ∀ (fuel n : Nat), 1 ≤ n → n ≤ fuel → n ≤ 2 ^ clog2F fuel n := by
  intro fuel
  induction fuel with
  | zero => intro n h1 h2; omega
  | succ fuel ih =>
    intro n h1 h2
    by_cases hn : n ≤ 1
    · simpa [clog2F, hn] using hn
    · have hm1 : 1 ≤ (n + 1) / 2 := by omega
      have hm2 : (n + 1) / 2 ≤ fuel := by omega
      have := ih ((n + 1) / 2) hm1 hm2
      simp only [clog2F, hn, if_false, pow_succ]
      omega

theorem le_two_pow_dpfDepth (n : Nat) (h : 1 ≤ n) : n ≤ 2 ^ dpfDepth n := by
  have h1 := le_two_pow_clog2F n n h le_rfl
  have h2 : 2 ^ clog2F n n ≤ 2 ^ dpfDepth n :=
    Nat.pow_le_pow_right (by omega) (le_max_right 1 (clog2F n n))
  omega

theorem pathBits_length (index depth : Nat) : (pathBits index depth).length = depth := by
  simp [pathBits]

theorem pathBits_inj (t j d : Nat) (ht : t < 2 ^ d) (hj : j < 2 ^ d)
    (h : pathBits t d = pathBits j d) : t = j := by
  apply Nat.eq_of_testBit_eq
  intro i
  by_cases hid : i < d
  · have hidx : d - 1 - i < d := by omega
    have := congrArg (fun l => l.getD (d - 1 - i) false) h
    simpa [pathBits, List.getD_eq_getElem?_getD, List.getElem?_map, List.getElem?_range,
      hidx, show d - 1 - (d - 1 - i) = i by omega] using this
  · rw [Nat.testBit_eq_false_of_lt (lt_of_lt_of_le ht (Nat.pow_le_pow_right (by omega) (by omega))),
      Nat.testBit_eq_false_of_lt (lt_of_lt_of_le hj (Nat.pow_le_pow_right (by omega) (by omega)))]

theorem generateDPF_common_fcw_eval (prg : Nat → ChildSeed) (index : Nat) (value : Int)
    (n s0i s1i : Nat) (R F : Int) (t : Nat) (hj : index < n) (ht : t < n) :
    evalDPF prg { (generateDPF prg index value n s0i s1i R).1 with FCW := F } t n
      + evalDPF prg { (generateDPF prg index value n s0i s1i R).2 with FCW := F } t n
    = if t = index then
        F + ((generateDPF prg index value n s0i s1i R).1.FCW
          + (generateDPF prg index value n s0i s1i R).2.FCW - value)
      else 0 := by
  have hnpos : 1 ≤ n := by omega
  have hpow := le_two_pow_dpfDepth n hnpos
  have hflag : ((genLoop prg (pathBits index (dpfDepth n)) ⟨s0i, s1i, false, true⟩).1).f0
      = !((genLoop prg (pathBits index (dpfDepth n)) ⟨s0i, s1i, false, true⟩).1).f1 :=
    genLoop_flag prg _ _ rfl
  by_cases hteq : t = index
  · subst hteq
    have h0 : evalLoop prg (pathBits t (dpfDepth n))
          (genLoop prg (pathBits t (dpfDepth n)) ⟨s0i, s1i, false, true⟩).2 ⟨s0i, false⟩
        = ⟨((genLoop prg (pathBits t (dpfDepth n)) ⟨s0i, s1i, false, true⟩).1).s0,
           ((genLoop prg (pathBits t (dpfDepth n)) ⟨s0i, s1i, false, true⟩).1).f0⟩ :=
      evalLoop_genLoop_replay0 prg _ _
    have h1 : evalLoop prg (pathBits t (dpfDepth n))
          (genLoop prg (pathBits t (dpfDepth n)) ⟨s0i, s1i, false, true⟩).2 ⟨s1i, true⟩
        = ⟨((genLoop prg (pathBits t (dpfDepth n)) ⟨s0i, s1i, false, true⟩).1).s1,
           ((genLoop prg (pathBits t (dpfDepth n)) ⟨s0i, s1i, false, true⟩).1).f1⟩ :=
      evalLoop_genLoop_replay1 prg _ _
    simp only [generateDPF, evalDPF, h0, h1]
    cases hf1 : ((genLoop prg (pathBits t (dpfDepth n)) ⟨s0i, s1i, false, true⟩).1).f1 <;>
      simp [hflag, hf1] <;> ring
  · have hbs : pathBits t (dpfDepth n) ≠ pathBits index (dpfDepth n) := fun hEq =>
      hteq (pathBits_inj t index (dpfDepth n) (by omega) (by omega) hEq)
    have hoff : evalLoop prg (pathBits t (dpfDepth n))
          (genLoop prg (pathBits index (dpfDepth n)) ⟨s0i, s1i, false, true⟩).2 ⟨s0i, false⟩
        = evalLoop prg (pathBits t (dpfDepth n))
          (genLoop prg (pathBits index (dpfDepth n)) ⟨s0i, s1i, false, true⟩).2 ⟨s1i, true⟩ :=
      evalLoop_genLoop_offpath prg _ _ (by rw [pathBits_length, pathBits_length]) hbs _ rfl
    simp only [generateDPF, evalDPF, hoff, if_neg hteq]
    cases hf1 : ((genLoop prg (pathBits index (dpfDepth n)) ⟨s0i, s1i, false, true⟩).1).f1 <;>
      simp [hflag, hf1] <;> ring

theorem EvalFull_zipWith_sum (prg : Nat → ChildSeed) (k0 k1 : DPFKey) (n : Nat) :
    List.zipWith (· + ·) (EvalFull prg k0 n) (EvalFull prg k1 n)
      = (List.range n).map (fun t => evalDPF prg k0 t n + evalDPF prg k1 t n) := by
  simp [EvalFull, List.zipWith_map, List.zipWith_same]

/-- C3: FCW-repair correctness.  For keys from `generateDPF(j, 0, n)` with
    `j < n` and any split `Δ0 + Δ1 = v_new`, substituting the reconstructed
    `adjusted_fcw = (Δ0 - FCW0) + (Δ1 - FCW1)` into a copy of each key (as
    the item-update loop of `pB.cpp` lines 198-221 does) makes the two
    parties' `EvalFull` over `n` leaves sum to `v_new` at index `j` and `0`
    everywhere else. -/
theorem fcw_repair_correct (j : Nat) (v_new d0 d1 : Int) (n s0i s1i : Nat) (R : Int)
    (hj : j < n) (hsplit : d0 + d1 = v_new) :
    List.zipWith (· + ·)
      (EvalFull PRG { (generateDPF PRG j 0 n s0i s1i R).1 with
        FCW := (d0 - (generateDPF PRG j 0 n s0i s1i R).1.FCW)
             + (d1 - (generateDPF PRG j 0 n s0i s1i R).2.FCW) } n)
      (EvalFull PRG { (generateDPF PRG j 0 n s0i s1i R).2 with
        FCW := (d0 - (generateDPF PRG j 0 n s0i s1i R).1.FCW)
             + (d1 - (generateDPF PRG j 0 n s0i s1i R).2.FCW) } n)
    = (List.range n).map (fun t => if t = j then v_new else 0) := by
  rw [EvalFull_zipWith_sum]
  apply List.map_congr_left
  intro t htmem
  rw [generateDPF_common_fcw_eval PRG j 0 n s0i s1i R _ t hj (List.mem_range.mp htmem)]
  by_cases hteq : t = j
  · rw [if_pos hteq, if_pos hteq, ← hsplit]; ring
  · rw [if_neg hteq, if_neg hteq]

/-- Witness for C3: `n = 2`, `j = 0`, `v_new = 7` split as `3 + 4`, seeds
    `0, 1`, mask `R = 0`; the repaired keys evaluate to `[7, 0]`. -/
theorem fcw_repair_correct_witness :
    0 < 2 ∧
    List.zipWith (· + ·)
      (EvalFull PRG { (generateDPF PRG 0 0 2 0 1 0).1 with
        FCW := (3 - (generateDPF PRG 0 0 2 0 1 0).1.FCW)
             + (4 - (generateDPF PRG 0 0 2 0 1 0).2.FCW) } 2)
      (EvalFull PRG { (generateDPF PRG 0 0 2 0 1 0).2 with
        FCW := (3 - (generateDPF PRG 0 0 2 0 1 0).1.FCW)
             + (4 - (generateDPF PRG 0 0 2 0 1 0).2.FCW) } 2)
    = (List.range 2).map (fun t => if t = 0 then (7 : Int) else 0) :=
  ⟨by decide, fcw_repair_correct 0 7 3 4 2 0 1 0 (by decide) (by decide)⟩

/-- C2 counterexample: the keys returned by `generateDPF(0, 7, 2)` with root
    seeds `0, 1` and mask `R = 0` (all reachable draws of `random_uint8` /
    `random_int8`) do NOT satisfy the point-function property: their
    `EvalFull` sums are `[119, 0]`, not `[7, 0]`.  The per-key `FCW` fields
    are additive shares that only become usable after FCW repair installs a
    common value in both keys. -/
theorem generateDPF_raw_point_function_counterexample :
    ¬ (List.zipWith (· + ·)
        (EvalFull PRG (generateDPF PRG 0 7 2 0 1 0).1 2)
        (EvalFull PRG (generateDPF PRG 0 7 2 0 1 0).2 2)
      = (List.range 2).map (fun t => if t = 0 then (7 : Int) else 0)) := by
  decide

/-- C2 amended: for all `(j, v, n)` with `j < n`, the two keys of
    `generateDPF(j, v, n)` evaluate to the point function `v·e_j` once both
    `FCW` fields are replaced by the single common value
    `2v - FCW0 - FCW1` (the value FCW repair reconstructs for target `v`,
    since `FCW0 + FCW1 = v + sign0·s0_final + sign1·s1_final`). -/
theorem generateDPF_repaired_point_function (j : Nat) (v : Int) (n s0i s1i : Nat) (R : Int)
    (hj : j < n) :
    List.zipWith (· + ·)
      (EvalFull PRG { (generateDPF PRG j v n s0i s1i R).1 with
        FCW := 2 * v - (generateDPF PRG j v n s0i s1i R).1.FCW
             - (generateDPF PRG j v n s0i s1i R).2.FCW } n)
      (EvalFull PRG { (generateDPF PRG j v n s0i s1i R).2 with
        FCW := 2 * v - (generateDPF PRG j v n s0i s1i R).1.FCW
             - (generateDPF PRG j v n s0i s1i R).2.FCW } n)
    = (List.range n).map (fun t => if t = j then v else 0) := by
  rw [EvalFull_zipWith_sum]
  apply List.map_congr_left
  intro t htmem
  rw [generateDPF_common_fcw_eval PRG j v n s0i s1i R _ t hj (List.mem_range.mp htmem)]
  by_cases hteq : t = j
  · rw [if_pos hteq, if_pos hteq]; ring
  · rw [if_neg hteq, if_neg hteq]

/-- Witness for the amended C2: `n = 2`, `j = 0`, `v = 7`, seeds `0, 1`,
    `R = 0`. -/
theorem generateDPF_repaired_point_function_witness :
    0 < 2 ∧
    List.zipWith (· + ·)
      (EvalFull PRG { (generateDPF PRG 0 7 2 0 1 0).1 with
        FCW := 2 * 7 - (generateDPF PRG 0 7 2 0 1 0).1.FCW
             - (generateDPF PRG 0 7 2 0 1 0).2.FCW } 2)
      (EvalFull PRG { (generateDPF PRG 0 7 2 0 1 0).2 with
        FCW := 2 * 7 - (generateDPF PRG 0 7 2 0 1 0).1.FCW
             - (generateDPF PRG 0 7 2 0 1 0).2.FCW } 2)
    = (List.range 2).map (fun t => if t = 0 then (7 : Int) else 0) :=
  ⟨by decide, generateDPF_repaired_point_function 0 7 2 0 1 0 (by decide)⟩

/-- C10: key-pair invariant of `generateDPF`.  The two returned keys carry
    identical `cws` vectors, and their `sign` fields are opposite members of
    `{+1, -1}` (equivalently, the two final control flags at generation
    differ), which is what makes equal-seed, equal-flag leaves cancel once
    both keys carry the same FCW. -/
theorem generateDPF_key_pair_invariant (index : Nat) (value : Int)
    (n s0i s1i : Nat) (R : Int) :
    (generateDPF PRG index value n s0i s1i R).1.cws
        = (generateDPF PRG index value n s0i s1i R).2.cws
      ∧ (generateDPF PRG index value n s0i s1i R).1.sign
        + (generateDPF PRG index value n s0i s1i R).2.sign = 0
      ∧ ((generateDPF PRG index value n s0i s1i R).1.sign = 1
        ∨ (generateDPF PRG index value n s0i s1i R).1.sign = -1) := by
  have hflag : ((genLoop PRG (pathBits index (dpfDepth n)) ⟨s0i, s1i, false, true⟩).1).f0
      = !((genLoop PRG (pathBits index (dpfDepth n)) ⟨s0i, s1i, false, true⟩).1).f1 :=
    genLoop_flag PRG _ _ rfl
  refine ⟨rfl, ?_, ?_⟩ <;>
    simp only [generateDPF] <;>
    cases hf1 : ((genLoop PRG (pathBits index (dpfDepth n)) ⟨s0i, s1i, false, true⟩).1).f1 <;>
    simp [hflag, hf1]

/-- C7 counterexample: the role-parity discipline as stated (role 0 always
    sends first on the peer link) is violated by the secure scalar-vector
    product and the FCW-repair exchange, where role 0 receives first
    (`pB.cpp` lines 82-92 and 203-210). -/
theorem role_parity_counterexample :
    ¬ ((scalar_vector_trace 0).head? = some PeerAct.send
       ∧ (fcw_exchange_trace 0).head? = some PeerAct.send) := by
  decide

/-- C7 amended: every peer-link exchange pairs complementary directions
    between the two roles (each send matching the peer's receive, so no
    deadlock), but the first-mover alternates by gadget: the secure dot
    product, the oblivious-lookup offset exchange and `exchange_value` have
    role 0 send first, while the secure scalar-vector product and the
    FCW-repair exchange have role 0 receive first. -/
theorem peer_exchange_complementarity (feature_dim : Nat) :
    inner_product_trace 1 = (inner_product_trace 0).map dualAct
    ∧ scalar_vector_trace 1 = (scalar_vector_trace 0).map dualAct
    ∧ lookup_offset_trace 1 = (lookup_offset_trace 0).map dualAct
    ∧ retrieve_trace 1 feature_dim = (retrieve_trace 0 feature_dim).map dualAct
    ∧ fcw_exchange_trace 1 = (fcw_exchange_trace 0).map dualAct
    ∧ exchange_value_trace 1 = (exchange_value_trace 0).map dualAct
    ∧ (inner_product_trace 0).head? = some PeerAct.send
    ∧ (lookup_offset_trace 0).head? = some PeerAct.send
    ∧ (exchange_value_trace 0).head? = some PeerAct.send
    ∧ (scalar_vector_trace 0).head? = some PeerAct.recv
    ∧ (fcw_exchange_trace 0).head? = some PeerAct.recv := by
  refine ⟨by decide, by decide, by decide, ?_, by decide, by decide,
    by decide, by decide, by decide, by decide, by decide⟩
  simp only [retrieve_trace, List.map_append, List.map_flatten, List.map_replicate]
  rw [show lookup_offset_trace 1 = (lookup_offset_trace 0).map dualAct from by decide,
    show inner_product_trace 1 = (inner_product_trace 0).map dualAct from by decide]

/-- C8: matrix persistence round-trip.  Saving an `int64_t` share (low 32
    bits printed as unsigned decimal, `pB.cpp` lines 237/250) and loading it
    back (`uint32_t` parsed, cast to `int32_t`, sign-extended to `int64_t`,
    `common.hpp` line 325) yields a value congruent to the original mod 2^32,
    and exactly the original for shares in `[-2^31, 2^31)`. -/
theorem matrix_share_round_trip (x : Int) :
    load_share_i64 (save_share_u32 x) % 2 ^ 32 = x % 2 ^ 32
    ∧ (-2 ^ 31 ≤ x → x < 2 ^ 31 → load_share_i64 (save_share_u32 x) = x) := by
  have h0 : (0 : Int) ≤ x % 2 ^ 32 := Int.emod_nonneg x (by norm_num)
  have h1 : x % 2 ^ 32 < 2 ^ 32 := Int.emod_lt_of_pos x (by norm_num)
  have htn : ((x % 2 ^ 32).toNat : Int) = x % 2 ^ 32 := Int.toNat_of_nonneg h0
  constructor
  · simp only [load_share_i64, save_share_u32]
    split_ifs with h
    · omega
    · omega
  · intro hlo hhi
    simp only [load_share_i64, save_share_u32]
    split_ifs with h
    · omega
    · omega

/-- Witness for C8 at `x = -5`: the saved `uint32_t` is `4294967291` and the
    reload recovers `-5` exactly. -/
theorem matrix_share_round_trip_witness :
    -2 ^ 31 ≤ (-5 : Int) ∧ (-5 : Int) < 2 ^ 31
    ∧ load_share_i64 (save_share_u32 (-5)) = -5 :=
  ⟨by decide, by decide, (matrix_share_round_trip (-5)).2 (by decide) (by decide)⟩

theorem sum_zipWith_eq_sum_range {α β M : Type} [AddCommMonoid M] (g : α → β → M)
    (a : List α) (b : List β) (da : α) (db : β) (L : Nat)
    (ha : a.length = L) (hb : b.length = L) :
    (List.zipWith g a b).sum = ∑ i ∈ Finset.range L, g (a.getD i da) (b.getD i db) := by
  induction a generalizing b L with
  | nil =>
    cases b with
    | nil => subst ha; simp
    | cons y b => rw [← ha] at hb; simp at hb
  | cons x a ih =>
    cases b with
    | nil => rw [← ha] at hb; simp at hb
    | cons y b =>
      cases L with
      | zero => simp at ha
      | succ L =>
        rw [List.zipWith_cons_cons, List.sum_cons, Finset.sum_range_succ']
        simp only [List.getD_cons_succ, List.getD_cons_zero]
        rw [ih b L (by simpa using ha) (by simpa using hb)]
        exact add_comm _ _

theorem count_mismatches_eq_zero_iff (rows cols : Nat) (A B : List (List Nat))
    (hA : A.length = rows) (hB : B.length = rows)
    (hAr : ∀ i, i < rows → (A.getD i []).length = cols)
    (hBr : ∀ i, i < rows → (B.getD i []).length = cols) :
    count_mismatches A B = 0
      ↔ ∀ i f, i < rows → f < cols → (A.getD i []).getD f 0 = (B.getD i []).getD f 0 := by
  unfold count_mismatches
  rw [sum_zipWith_eq_sum_range _ A B [] [] rows hA hB]
  rw [Finset.sum_congr rfl (fun i hi =>
    sum_zipWith_eq_sum_range _ (A.getD i []) (B.getD i []) 0 0 cols
      (hAr i (Finset.mem_range.mp hi)) (hBr i (Finset.mem_range.mp hi)))]
  simp only [Finset.sum_eq_zero_iff, Finset.mem_range, List.getD_eq_getElem?_getD]
  constructor
  · intro h i f hi hf
    have := h i hi f hf
    by_contra hne
    simp [hne] at this
  · intro h i hi f hf
    simp [h i f hi hf]

/-- C9 counterexample: with 11 mismatching entries in each matrix the checker
    prints 20 location-annotated diffs (10 per comparison loop), not at most
    10 in total. -/
theorem checker_diff_cap_counterexample :
    ¬ (printed_diff_count (List.replicate 11 [0]) (List.replicate 11 [1])
        (List.replicate 11 [0]) (List.replicate 11 [1]) ≤ 10) := by
  decide

/-- C9 amended: the checker exits 0 iff every entry of the recombined
    updated shares agrees with the cleartext simulation (as `uint32_t`
    values, i.e. mod 2^32), exits 1 otherwise, and prints at most 10
    location-annotated diffs per matrix, hence at most 20 in total
    (`check_correctness.cpp` lines 331-389). -/
theorem checker_exit_code_contract (m nI k : Nat) (Um Ucl Vm Vcl : List (List Nat))
    (hUm : Um.length = m) (hUc : Ucl.length = m)
    (hUmr : ∀ i, i < m → (Um.getD i []).length = k)
    (hUcr : ∀ i, i < m → (Ucl.getD i []).length = k)
    (hVm : Vm.length = nI) (hVc : Vcl.length = nI)
    (hVmr : ∀ i, i < nI → (Vm.getD i []).length = k)
    (hVcr : ∀ i, i < nI → (Vcl.getD i []).length = k) :
    (checker_exit_code Um Ucl Vm Vcl = 0 ↔
      ((∀ i f, i < m → f < k → (Um.getD i []).getD f 0 = (Ucl.getD i []).getD f 0)
        ∧ (∀ i f, i < nI → f < k → (Vm.getD i []).getD f 0 = (Vcl.getD i []).getD f 0)))
    ∧ (checker_exit_code Um Ucl Vm Vcl = 0 ∨ checker_exit_code Um Ucl Vm Vcl = 1)
    ∧ printed_diff_count Um Ucl Vm Vcl ≤ 20 := by
  refine ⟨?_, ?_, ?_⟩
  · rw [← count_mismatches_eq_zero_iff m k Um Ucl hUm hUc hUmr hUcr,
      ← count_mismatches_eq_zero_iff nI k Vm Vcl hVm hVc hVmr hVcr]
    unfold checker_exit_code
    split_ifs with h
    · simp [h]
    · exact iff_of_false (fun hx => hx) h
  · unfold checker_exit_code; split_ifs <;> simp
  · exact Nat.add_le_add (Nat.min_le_right _ _) (Nat.min_le_right _ _)

/-- Witness for the amended C9: a 1x1 pair of matching matrices gives exit
    code 0, entry-wise agreement, and at most 20 printed diffs. -/
theorem checker_exit_code_contract_witness :
    (checker_exit_code [[5]] [[5]] [[9]] [[9]] = 0 ↔
      ((∀ i f, i < 1 → f < 1 →
          (([[5]] : List (List Nat)).getD i []).getD f 0
            = (([[5]] : List (List Nat)).getD i []).getD f 0)
        ∧ (∀ i f, i < 1 → f < 1 →
          (([[9]] : List (List Nat)).getD i []).getD f 0
            = (([[9]] : List (List Nat)).getD i []).getD f 0)))
    ∧ (checker_exit_code [[5]] [[5]] [[9]] [[9]] = 0
        ∨ checker_exit_code [[5]] [[5]] [[9]] [[9]] = 1)
    ∧ printed_diff_count [[5]] [[5]] [[9]] [[9]] ≤ 20 :=
  checker_exit_code_contract 1 1 1 [[5]] [[5]] [[9]] [[9]] rfl rfl
    (by decide) (by decide) rfl rfl (by decide) (by decide)

/-! ## Lookup and rotation toolkit -/

theorem getD_eq_get (l : List Int) (i : Nat) (h : i < l.length) :
    l.getD i 0 = l.get ⟨i, h⟩ := by
  simp [List.getD_eq_getElem?_getD, List.getElem?_eq_getElem h]

theorem IsMatrix_row {M : List (List Int)} {rows cols : Nat}
    (h : IsMatrix M rows cols) (i : Nat) (hi : i < rows) :
    (M.getD i []).length = cols := by
  obtain ⟨hlen, hrows⟩ := h
  have hi2 : i < M.length := by omega
  rw [List.getD_eq_getElem?_getD, List.getElem?_eq_getElem hi2]
  exact hrows _ (List.getElem_mem hi2)

theorem vec_add_getD (a b : List Int) (i : Nat) (hia : i < a.length) (hib : i < b.length) :
    (vec_add a b).getD i 0 = a.getD i 0 + b.getD i 0 := by
  simp [vec_add, List.getD_eq_getElem?_getD, List.getElem?_zipWith, List.getElem?_eq_getElem,
    hia, hib, List.getElem?_eq_getElem (show i < (List.zipWith (· + ·) a b).length by simp; omega)]

theorem mat_add_getD (A B : List (List Int)) (i : Nat)
    (hia : i < A.length) (hib : i < B.length) :
    (mat_add A B).getD i [] = vec_add (A.getD i []) (B.getD i []) := by
  simp [mat_add, List.getD_eq_getElem?_getD, List.getElem?_zipWith, List.getElem?_eq_getElem,
    hia, hib, List.getElem?_eq_getElem (show i < (List.zipWith vec_add A B).length by simp; omega)]

theorem headD_eq_getD (l : List (List Int)) (h : 0 < l.length) :
    l.headD [] = l.getD 0 [] := by
  cases l with
  | nil => simp at h
  | cons x t => rfl

theorem one_hot_length (n idx : Nat) : (one_hot n idx).length = n := by
  simp [one_hot]

theorem one_hot_getD (n idx i : Nat) (h : i < n) :
    (one_hot n idx).getD i 0 = if i = idx then 1 else 0 := by
  simp [one_hot, List.getD_eq_getElem?_getD, List.getElem?_map, List.getElem?_range, h]

theorem vec_sub_length (a b : List Int) : (vec_sub a b).length = min a.length b.length := by
  simp [vec_sub]

theorem vec_add_sub_cancel (a b : List Int) (h : a.length = b.length) :
    vec_add a (vec_sub b a) = b := by
  apply List.ext_getElem
  · simp [vec_add, vec_sub]; omega
  · intro i h1 h2
    simp [vec_add, vec_sub, List.getElem_zipWith]

theorem rotate_left_length (l : List Int) (s : Nat) : (rotate_left l s).length = l.length := by
  simp [rotate_left]
  omega

theorem vec_add_rotate (a b : List Int) (s : Nat) (h : a.length = b.length) :
    vec_add (rotate_left a s) (rotate_left b s) = rotate_left (vec_add a b) s := by
  unfold rotate_left vec_add
  rw [List.zipWith_append _ _ _ _ _ (by simp [h]), List.drop_zipWith, List.take_zipWith]

theorem neg_tmod_left (a b : Int) : (-a).tmod b = -(a.tmod b) := by
  rw [Int.tmod_def, Int.tmod_def, Int.neg_tdiv]
  ring

/-- The branchy `total_rotation` computation of `pB.cpp` lines 126-132
    computes exactly the mathematical (Euclidean) remainder. -/
theorem total_rotation_emod (c : Int) (n : Nat) (hn : 0 < n) :
    (total_rotation c n : Int) = c % (n : Int) := by
  have hnI : (0 : Int) < (n : Int) := by exact_mod_cast hn
  unfold total_rotation
  split_ifs with h
  · rw [Int.tmod_eq_emod h (le_of_lt hnI)]
    exact Int.toNat_of_nonneg (Int.emod_nonneg c (by omega))
  · push_neg at h
    have hsplit : c.tmod (n : Int) = -((-c).tmod (n : Int)) := by
      rw [← neg_tmod_left, neg_neg]
    have hu0 : 0 ≤ (-c).tmod (n : Int) := Int.tmod_nonneg _ (by omega)
    have hu1 : (-c).tmod (n : Int) < (n : Int) := Int.tmod_lt_of_pos _ hnI
    have hnn : 0 ≤ (n : Int) + c.tmod (n : Int) := by omega
    rw [Int.tmod_eq_emod hnn (le_of_lt hnI)]
    have hcong : ((n : Int) + c.tmod (n : Int)) % (n : Int) = c % (n : Int) := by
      rw [Int.emod_eq_emod_iff_emod_sub_eq_zero]
      have hdvd : (n : Int) ∣ ((n : Int) + c.tmod (n : Int) - c) := by
        refine ⟨1 - c.tdiv (n : Int), ?_⟩
        rw [Int.tmod_def]
        ring
      exact Int.emod_eq_zero_of_dvd hdvd
    rw [hcong]
    exact Int.toNat_of_nonneg (Int.emod_nonneg c (by omega))

theorem total_rotation_lt (c : Int) (n : Nat) (hn : 0 < n) : total_rotation c n < n := by
  have h := total_rotation_emod c n hn
  have h2 : c % (n : Int) < (n : Int) := Int.emod_lt_of_pos c (by exact_mod_cast hn)
  omega

theorem nat_mod_two_cases (a n : Nat) (hn : 0 < n) (h : a < 2 * n) :
    a % n = if a < n then a else a - n := by
  split_ifs with h2
  · exact Nat.mod_eq_of_lt h2
  · rw [Nat.mod_eq_sub_mod (by omega), Nat.mod_eq_of_lt (by omega)]

theorem rotate_left_getD (l : List Int) (s i : Nat) (hs : s ≤ l.length) (hi : i < l.length) :
    (rotate_left l s).getD i 0 = l.getD ((i + s) % l.length) 0 := by
  have hn : 0 < l.length := by omega
  unfold rotate_left
  by_cases hcase : i < l.length - s
  · rw [List.getD_eq_getElem?_getD, List.getElem?_append_left (by simp; omega),
      List.getElem?_drop, ← List.getD_eq_getElem?_getD]
    congr 1
    rw [Nat.mod_eq_of_lt (by omega)]
    omega
  · rw [List.getD_eq_getElem?_getD, List.getElem?_append_right (by simp; omega),
      List.getElem?_take_of_lt (by simp; omega), ← List.getD_eq_getElem?_getD]
    congr 1
    simp only [List.length_drop]
    rw [nat_mod_two_cases _ _ hn (by omega), if_neg (by omega)]
    omega

/-- Right-rotating the helper's one-hot vector at `r` by `δ = (j - r) mod n`
    (implemented as a left rotation by `(n - δ) mod n`) produces the one-hot
    vector at `j`. -/
theorem one_hot_rotate (n r j : Nat) (hr : r < n) (hj : j < n) :
    rotate_left (one_hot n r)
        ((n - total_rotation ((j : Int) - (r : Int)) n) % n)
      = one_hot n j := by
  have hn : 0 < n := by omega
  set d := total_rotation ((j : Int) - (r : Int)) n with hddef
  set s := (n - d) % n with hsdef
  have hdI : (d : Int) = ((j : Int) - (r : Int)) % (n : Int) := total_rotation_emod _ _ hn
  have hdlt : d < n := total_rotation_lt _ _ hn
  have hdnat : d = (j + n - r) % n := by
    have h1 : ((j : Int) - (r : Int)) % (n : Int) = (((j + n - r : Nat) : Int)) % (n : Int) := by
      have hc : ((j + n - r : Nat) : Int) = (j : Int) - (r : Int) + (n : Int) * 1 := by
        push_cast
        omega
      rw [hc, Int.add_mul_emod_self_left]
    have h2 : (((j + n - r) % n : Nat) : Int) = ((j + n - r : Nat) : Int) % ((n : Nat) : Int) :=
      Int.natCast_mod _ _
    have h3 : (d : Int) = (((j + n - r) % n : Nat) : Int) := by rw [hdI, h1, ← h2]
    exact_mod_cast h3
  have hs2 : s = (n - d) % n := hsdef
  have hslt : s < n := by rw [hs2]; exact Nat.mod_lt _ hn
  have hsd : s + d = 0 ∨ s + d = n := by
    by_cases hd0 : d = 0
    · left
      rw [hs2, hd0, Nat.sub_zero, Nat.mod_self]
    · right
      rw [hs2, Nat.mod_eq_of_lt (by omega)]
      omega
  have hdcases : (j < r ∧ d = j + n - r) ∨ (r ≤ j ∧ d = j - r) := by
    rw [nat_mod_two_cases (j + n - r) n hn (by omega)] at hdnat
    by_cases hjr : j < r
    · left
      refine ⟨hjr, ?_⟩
      rwa [if_pos (by omega)] at hdnat
    · right
      refine ⟨by omega, ?_⟩
      rw [if_neg (by omega)] at hdnat
      omega
  apply List.ext_getElem
  · rw [rotate_left_length, one_hot_length, one_hot_length]
  · intro i h1 h2
    have hiN : i < n := by rwa [one_hot_length] at h2
    have hrl : (rotate_left (one_hot n r) s).getD i 0 = (one_hot n r).getD ((i + s) % n) 0 := by
      have := rotate_left_getD (one_hot n r) s i
        (by rw [one_hot_length]; omega) (by rw [one_hot_length]; omega)
      rwa [one_hot_length] at this
    have hmod : (i + s) % n < n := Nat.mod_lt _ hn
    have hgoal : (rotate_left (one_hot n r) s).getD i 0 = (one_hot n j).getD i 0 := by
      rw [hrl, one_hot_getD n r _ hmod, one_hot_getD n j i hiN]
      have hcond : ((i + s) % n = r) ↔ i = j := by
        rw [nat_mod_two_cases (i + s) n hn (by omega)]
        rcases hsd with hsd | hsd <;> rcases hdcases with ⟨hc1, hc2⟩ | ⟨hc1, hc2⟩ <;>
          split_ifs with hif <;> omega
      by_cases hij : i = j
      · rw [if_pos (hcond.mpr hij), if_pos hij]
      · rw [if_neg (fun hc => hij (hcond.mp hc)), if_neg hij]
    calc (rotate_left (one_hot n r) s)[i] = (rotate_left (one_hot n r) s).getD i 0 := by
          rw [List.getD_eq_getElem?_getD, List.getElem?_eq_getElem h1]
          rfl
      _ = (one_hot n j).getD i 0 := hgoal
      _ = (one_hot n j)[i] := by
          rw [List.getD_eq_getElem?_getD, List.getElem?_eq_getElem h2]
          rfl

theorem vec_dot_product_one_hot (l : List Int) (n j : Nat) (hl : l.length = n) (hj : j < n) :
    vec_dot_product l (one_hot n j) = l.getD j 0 := by
  unfold vec_dot_product
  rw [sum_zipWith_eq_sum_range (· * ·) l (one_hot n j) 0 0 n hl (one_hot_length n j)]
  rw [Finset.sum_congr rfl (fun i hi => by
    rw [one_hot_getD n j i (Finset.mem_range.mp hi), mul_ite, mul_one, mul_zero])]
  rw [Finset.sum_ite_eq' (Finset.range n) j (fun i => l.getD i 0)]
  rw [if_pos (Finset.mem_range.mpr hj)]

theorem getD_eq_getElem_of_lt {α : Type} (l : List α) (d : α) (i : Nat) (h : i < l.length) :
    l.getD i d = l[i] := by
  rw [List.getD_eq_getElem?_getD, List.getElem?_eq_getElem h]
  rfl

theorem matrix_column_length (M : List (List Int)) (f : Nat) :
    (matrix_column M f).length = M.length := by
  simp [matrix_column]

theorem matrix_column_getD (M : List (List Int)) (f j : Nat) (hj : j < M.length) :
    (matrix_column M f).getD j 0 = (M.getD j []).getD f 0 := by
  simp [matrix_column, List.getD_eq_getElem?_getD, List.getElem?_map,
    List.getElem?_eq_getElem hj]

/-- Joint oblivious lookup: the two servers' outputs sum element-wise to
    row `j` of `V0 + V1`. -/
theorem retrieve_item_profile_shares_joint_sum
    (n k : Nat) (j : Nat) (j0 j1 : Int) (V0 V1 : List (List Int)) (d : LookupDraws)
    (hV0 : IsMatrix V0 n k) (hV1 : IsMatrix V1 n k)
    (hj : j < n) (hjsum : j0 + j1 = (j : Int))
    (hr : d.random_index < n) (hr0 : d.r0_shares.length = n)
    (hmats : ∀ f, f < k →
      (d.dot_mats.getD f ⟨[], [], [], [], 0⟩).X0.length = n
      ∧ (d.dot_mats.getD f ⟨[], [], [], [], 0⟩).Y0.length = n
      ∧ (d.dot_mats.getD f ⟨[], [], [], [], 0⟩).X1.length = n
      ∧ (d.dot_mats.getD f ⟨[], [], [], [], 0⟩).Y1.length = n) :
    vec_add (retrieve_item_profile_shares_joint j0 j1 V0 V1 d).1
        (retrieve_item_profile_shares_joint j0 j1 V0 V1 d).2
      = (mat_add V0 V1).getD j [] := by
  have hn : 0 < n := by omega
  have hlen0 : V0.length = n := hV0.1
  have hlen1 : V1.length = n := hV1.1
  have hfd : (V0.headD []).length = k := by
    rw [headD_eq_getD _ (by omega)]
    exact IsMatrix_row hV0 0 hn
  have harg : (j0 - d.rotation_offset_share)
      + (j1 - ((d.random_index : Int) - d.rotation_offset_share))
      = (j : Int) - (d.random_index : Int) := by omega
  unfold retrieve_item_profile_shares_joint
  simp only [hlen0, hfd, hr0, vec_sub_length, one_hot_length, min_self, harg]
  rw [mat_add_getD V0 V1 j (by omega) (by omega)]
  apply List.ext_getElem
  · rw [vec_add_length, vec_add_length, IsMatrix_row hV0 j hj, IsMatrix_row hV1 j hj]
    simp
  · intro i h1 h2
    have hik : i < k := by
      simp [vec_add] at h1
      omega
    obtain ⟨hX0, hY0, hX1, hY1⟩ := hmats i hik
    simp only [vec_add, List.getElem_zipWith, List.getElem_map, List.getElem_range]
    rw [joint_inner_product_sum n (matrix_column V0 i)
        (rotate_left d.r0_shares
          ((n - total_rotation ((j : Int) - (d.random_index : Int)) n) % n))
        (matrix_column V1 i)
        (rotate_left (vec_sub (one_hot n d.random_index) d.r0_shares)
          ((n - total_rotation ((j : Int) - (d.random_index : Int)) n) % n))
        (d.dot_mats.getD i ⟨[], [], [], [], 0⟩)
        (by rw [matrix_column_length]; omega)
        (by rw [matrix_column_length]; omega)
        (by rw [rotate_left_length]; omega)
        (by rw [rotate_left_length, vec_sub_length, one_hot_length, hr0, min_self])
        hX0 hY0 hX1 hY1]
    rw [vec_add_rotate _ _ _
        (by rw [vec_sub_length, one_hot_length, hr0, min_self])]
    rw [vec_add_sub_cancel d.r0_shares (one_hot n d.random_index)
        (by rw [one_hot_length, hr0])]
    rw [one_hot_rotate n d.random_index j hr hj]
    rw [vec_dot_product_one_hot _ n j
        (by rw [vec_add_length, matrix_column_length, matrix_column_length]; omega) hj]
    rw [vec_add_getD _ _ j (by rw [matrix_column_length]; omega)
        (by rw [matrix_column_length]; omega)]
    rw [matrix_column_getD V0 i j (by omega), matrix_column_getD V1 i j (by omega)]
    have hrow0 : i < (V0.getD j []).length := by rw [IsMatrix_row hV0 j hj]; omega
    have hrow1 : i < (V1.getD j []).length := by rw [IsMatrix_row hV1 j hj]; omega
    rw [getD_eq_getElem_of_lt _ _ _ hrow0, getD_eq_getElem_of_lt _ _ _ hrow1]

/-- C4: oblivious-lookup correctness.  For item-matrix shares `V0`, `V1`
    with `n` rows, any sharing `j0 + j1 = j` with `j < n`, any helper
    rotation index `r < n`, any offset share `a0` and one-hot share `r0`,
    and helper dot-product draws of length `n`, the two servers' outputs of
    `retrieve_item_profile_shares` (`pB.cpp` lines 105-149) sum element-wise
    to row `j` of `V0 + V1`; in particular the rotation amount
    `delta = j - r mod n` is reduced correctly from a possibly negative
    signed value (e.g. `n = 8`, `j = 0`, `r = 7` gives `delta = 1`). -/
theorem retrieve_item_profile_shares_correct
    (n k : Nat) (j : Nat) (j0 j1 : Int) (V0 V1 : List (List Int)) (d : LookupDraws)
    (hV0 : IsMatrix V0 n k) (hV1 : IsMatrix V1 n k)
    (hj : j < n) (hjsum : j0 + j1 = (j : Int))
    (hr : d.random_index < n) (hr0 : d.r0_shares.length = n)
    (hmats : ∀ f, f < k →
      (d.dot_mats.getD f ⟨[], [], [], [], 0⟩).X0.length = n
      ∧ (d.dot_mats.getD f ⟨[], [], [], [], 0⟩).Y0.length = n
      ∧ (d.dot_mats.getD f ⟨[], [], [], [], 0⟩).X1.length = n
      ∧ (d.dot_mats.getD f ⟨[], [], [], [], 0⟩).Y1.length = n) :
    vec_add (retrieve_item_profile_shares_joint j0 j1 V0 V1 d).1
        (retrieve_item_profile_shares_joint j0 j1 V0 V1 d).2
      = (mat_add V0 V1).getD j [] :=
  retrieve_item_profile_shares_joint_sum n k j j0 j1 V0 V1 d hV0 hV1 hj hjsum hr hr0 hmats

/-- Witness for C4 at the rotation boundary of the claim: `n = 8`, `j = 0`
    shared as `5 + (-5)`, helper rotation base `r = 7` (so `delta = 1` after
    signed-to-modular reduction), offset share `a0 = 3`. -/
theorem retrieve_item_profile_shares_correct_witness :
    vec_add (retrieve_item_profile_shares_joint 5 (-5)
        [[1], [2], [3], [4], [5], [6], [7], [8]]
        [[10], [20], [30], [40], [50], [60], [70], [80]]
        ⟨7, 3, [1, 0, 2, 0, 3, 0, 4, 1],
          [⟨[1, 1, 1, 1, 1, 1, 1, 1], [2, 2, 2, 2, 2, 2, 2, 2],
            [1, 2, 1, 2, 1, 2, 1, 2], [0, 1, 0, 1, 0, 1, 0, 1], 9⟩]⟩).1
      (retrieve_item_profile_shares_joint 5 (-5)
        [[1], [2], [3], [4], [5], [6], [7], [8]]
        [[10], [20], [30], [40], [50], [60], [70], [80]]
        ⟨7, 3, [1, 0, 2, 0, 3, 0, 4, 1],
          [⟨[1, 1, 1, 1, 1, 1, 1, 1], [2, 2, 2, 2, 2, 2, 2, 2],
            [1, 2, 1, 2, 1, 2, 1, 2], [0, 1, 0, 1, 0, 1, 0, 1], 9⟩]⟩).2
    = (mat_add [[1], [2], [3], [4], [5], [6], [7], [8]]
        [[10], [20], [30], [40], [50], [60], [70], [80]]).getD 0 [] :=
  retrieve_item_profile_shares_correct 8 1 0 5 (-5)
    [[1], [2], [3], [4], [5], [6], [7], [8]]
    [[10], [20], [30], [40], [50], [60], [70], [80]]
    ⟨7, 3, [1, 0, 2, 0, 3, 0, 4, 1],
      [⟨[1, 1, 1, 1, 1, 1, 1, 1], [2, 2, 2, 2, 2, 2, 2, 2],
        [1, 2, 1, 2, 1, 2, 1, 2], [0, 1, 0, 1, 0, 1, 0, 1], 9⟩]⟩
    (by constructor <;> decide) (by constructor <;> decide)
    (by decide) (by decide) (by decide) (by decide) (by decide)

/-! ## Shape and entry lemmas for the protocol composition -/

theorem EvalFull_length (prg : Nat → ChildSeed) (key : DPFKey) (n : Nat) :
    (EvalFull prg key n).length = n := by
  simp [EvalFull]

theorem EvalFull_getD (prg : Nat → ChildSeed) (key : DPFKey) (n t : Nat) (ht : t < n) :
    (EvalFull prg key n).getD t 0 = evalDPF prg key t n := by
  simp [EvalFull, List.getD_eq_getElem?_getD, List.getElem?_map, List.getElem?_range, ht]

theorem mat_add_length (A B : List (List Int)) :
    (mat_add A B).length = min A.length B.length := by
  simp [mat_add]

theorem IsMatrix_length {M : List (List Int)} {rows cols : Nat}
    (h : IsMatrix M rows cols) : M.length = rows := h.1

theorem mat_add_IsMatrix {A B : List (List Int)} {rows cols : Nat}
    (hA : IsMatrix A rows cols) (hB : IsMatrix B rows cols) :
    IsMatrix (mat_add A B) rows cols := by
  refine ⟨by rw [mat_add_length, hA.1, hB.1, min_self], ?_⟩
  intro row hrow
  rw [mat_add] at hrow
  rw [List.mem_iff_getElem] at hrow
  obtain ⟨i, hi, hrow⟩ := hrow
  rw [List.getElem_zipWith] at hrow
  subst hrow
  rw [vec_add_length]
  have hiA : i < A.length := by simp at hi; omega
  have hiB : i < B.length := by simp at hi; omega
  rw [hA.2 _ (List.getElem_mem hiA), hB.2 _ (List.getElem_mem hiB), min_self]

theorem set_IsMatrix {M : List (List Int)} {rows cols : Nat} {i : Nat} {row : List Int}
    (hM : IsMatrix M rows cols) (hrow : row.length = cols) :
    IsMatrix (M.set i row) rows cols := by
  refine ⟨by rw [List.length_set, hM.1], ?_⟩
  intro r hr
  rcases List.mem_or_eq_of_mem_set hr with h | h
  · exact hM.2 _ h
  · rw [h, hrow]

theorem IsMatrix_getD_mem {M : List (List Int)} {rows cols : Nat}
    (h : IsMatrix M rows cols) (i : Nat) (hi : i < rows) : M.getD i [] ∈ M := by
  have hi2 : i < M.length := by rw [h.1]; omega
  rw [getD_eq_getElem_of_lt _ _ _ hi2]
  exact List.getElem_mem hi2

theorem mat_eq_of_entries (A B : List (List Int)) (rows cols : Nat)
    (hA : IsMatrix A rows cols) (hB : IsMatrix B rows cols)
    (h : ∀ t g, t < rows → g < cols →
      (A.getD t []).getD g 0 = (B.getD t []).getD g 0) : A = B := by
  apply List.ext_getElem
  · rw [hA.1, hB.1]
  · intro t h1 h2
    have htr : t < rows := by rw [hA.1] at h1; exact h1
    apply List.ext_getElem
    · rw [hA.2 _ (List.getElem_mem h1), hB.2 _ (List.getElem_mem h2)]
    · intro g hg1 hg2
      have hgc : g < cols := by rw [hA.2 _ (List.getElem_mem h1)] at hg1; exact hg1
      have e1 : A[t] = A.getD t [] := (getD_eq_getElem_of_lt _ _ _ h1).symm
      have e2 : B[t] = B.getD t [] := (getD_eq_getElem_of_lt _ _ _ h2).symm
      have c1 : (A.getD t []).getD g 0 = A[t][g] := by
        rw [← e1]
        exact getD_eq_getElem_of_lt _ _ _ hg1
      have c2 : (B.getD t []).getD g 0 = B[t][g] := by
        rw [← e2]
        exact getD_eq_getElem_of_lt _ _ _ hg2
      rw [← c1, ← c2]
      exact h t g htr hgc

theorem mat_add_set (A B : List (List Int)) (i : Nat) (ra rb : List Int) :
    mat_add (A.set i ra) (B.set i rb) = (mat_add A B).set i (vec_add ra rb) := by
  apply List.ext_getElem
  · simp [mat_add]
  · intro t h1 h2
    simp only [mat_add, List.getElem_zipWith]
    by_cases hti : i = t
    · subst hti
      have hA : i < A.length := by simp [mat_add] at h2; omega
      have hB : i < B.length := by simp [mat_add] at h2; omega
      rw [List.getElem_set_self (by rw [List.length_set]; omega),
        List.getElem_set_self (by rw [List.length_set]; omega),
        List.getElem_set_self (by rw [List.length_set]; simp [mat_add]; omega)]
    · rw [List.getElem_set_ne hti, List.getElem_set_ne hti, List.getElem_set_ne hti]
      simp only [mat_add, List.getElem_zipWith]

theorem set_getD (M : List (List Int)) (i t : Nat) (row : List Int) (ht : t < M.length) :
    (M.set i row).getD t [] = if i = t then row else M.getD t [] := by
  rw [getD_eq_getElem_of_lt _ _ t (by rw [List.length_set]; omega)]
  rw [List.getElem_set]
  split_ifs with hit
  · rfl
  · exact (getD_eq_getElem_of_lt _ _ _ ht).symm

theorem add_to_column_IsMatrix {M : List (List Int)} {n k : Nat} {f : Nat} {col : List Int}
    (hM : IsMatrix M n k) (hcol : col.length = n) :
    IsMatrix (add_to_column M f col) n k := by
  refine ⟨by simp [add_to_column, hM.1, hcol], ?_⟩
  intro r hr
  rw [add_to_column, List.mem_iff_getElem] at hr
  obtain ⟨i, hi, hr⟩ := hr
  rw [List.getElem_zipWith] at hr
  rw [← hr, List.length_set]
  have hiM : i < M.length := by rw [List.length_zipWith] at hi; omega
  exact hM.2 _ (List.getElem_mem hiM)

theorem add_to_column_entry (M : List (List Int)) (f : Nat) (col : List Int)
    (n k : Nat) (hM : IsMatrix M n k) (hcol : col.length = n)
    (t g : Nat) (ht : t < n) (hg : g < k) :
    ((add_to_column M f col).getD t []).getD g 0
      = (M.getD t []).getD g 0 + (if g = f then col.getD t 0 else 0) := by
  have htM : t < M.length := by rw [hM.1]; omega
  have htc : t < col.length := by omega
  have hrowlen : (M.getD t []).length = k := IsMatrix_row hM t ht
  have hrowt : (add_to_column M f col).getD t []
      = (M.getD t []).set f ((M.getD t []).getD f 0 + col.getD t 0) := by
    rw [getD_eq_getElem_of_lt _ _ t (by simp [add_to_column]; omega)]
    simp only [add_to_column, List.getElem_zipWith]
    rw [getD_eq_getElem_of_lt _ _ t htM, getD_eq_getElem_of_lt _ _ t htc]
  rw [hrowt]
  by_cases hgf : g = f
  · subst hgf
    rw [getD_eq_getElem_of_lt _ _ g (by rw [List.length_set]; omega),
      List.getElem_set_self (by rw [List.length_set]; omega), if_pos rfl]
  · rw [getD_eq_getElem_of_lt _ _ g (by rw [List.length_set]; omega),
      List.getElem_set_ne (fun h => hgf h.symm), if_neg hgf,
      getD_eq_getElem_of_lt _ _ g (by omega)]
    ring

theorem item_update_foldl_entry (prg : Nat → ChildSeed) (nI k : Nat)
    (k0 k1 : DPFKey) (u0 u1 : List Int) :
    ∀ (fs : List Nat) (V0 V1 : List (List Int)),
    IsMatrix V0 nI k → IsMatrix V1 nI k →
    IsMatrix (fs.foldl (item_update_step prg nI k0 k1 u0 u1) (V0, V1)).1 nI k
    ∧ IsMatrix (fs.foldl (item_update_step prg nI k0 k1 u0 u1) (V0, V1)).2 nI k
    ∧ ∀ t g, t < nI → g < k →
      ((fs.foldl (item_update_step prg nI k0 k1 u0 u1) (V0, V1)).1.getD t []).getD g 0
      + ((fs.foldl (item_update_step prg nI k0 k1 u0 u1) (V0, V1)).2.getD t []).getD g 0
      = (V0.getD t []).getD g 0 + (V1.getD t []).getD g 0
        + (fs.count g : Int)
          * (evalDPF prg
                { k0 with FCW := (u0.getD g 0 - k0.FCW) + (u1.getD g 0 - k1.FCW) } t nI
             + evalDPF prg
                { k1 with FCW := (u0.getD g 0 - k0.FCW) + (u1.getD g 0 - k1.FCW) } t nI) := by
  intro fs
  induction fs with
  | nil =>
    intro V0 V1 hV0 hV1
    refine ⟨hV0, hV1, ?_⟩
    intro t g ht hg
    simp
  | cons f fs ih =>
    intro V0 V1 hV0 hV1
    have he0 : (EvalFull prg
        { k0 with FCW := (u0.getD f 0 - k0.FCW) + (u1.getD f 0 - k1.FCW) } nI).length = nI :=
      EvalFull_length _ _ _
    have he1 : (EvalFull prg
        { k1 with FCW := (u0.getD f 0 - k0.FCW) + (u1.getD f 0 - k1.FCW) } nI).length = nI :=
      EvalFull_length _ _ _
    have hstep : (f :: fs).foldl (item_update_step prg nI k0 k1 u0 u1) (V0, V1)
        = fs.foldl (item_update_step prg nI k0 k1 u0 u1)
            (add_to_column V0 f (EvalFull prg
              { k0 with FCW := (u0.getD f 0 - k0.FCW) + (u1.getD f 0 - k1.FCW) } nI),
             add_to_column V1 f (EvalFull prg
              { k1 with FCW := (u0.getD f 0 - k0.FCW) + (u1.getD f 0 - k1.FCW) } nI)) := by
      rfl
    rw [hstep]
    obtain ⟨ih1, ih2, ih3⟩ := ih _ _
      (add_to_column_IsMatrix hV0 he0) (add_to_column_IsMatrix hV1 he1)
    refine ⟨ih1, ih2, ?_⟩
    intro t g ht hg
    rw [ih3 t g ht hg]
    rw [add_to_column_entry _ f _ nI k hV0 he0 t g ht hg,
      add_to_column_entry _ f _ nI k hV1 he1 t g ht hg]
    rw [List.count_cons]
    have hcast : (((fs.count g) + if f == g then 1 else 0 : Nat) : Int)
        = (fs.count g : Int) + (if g = f then (1 : Int) else 0) := by
      by_cases hgf : g = f
      · subst hgf
        simp
      · have hfg : ¬f = g := fun h => hgf h.symm
        simp [hgf, hfg]
    rw [hcast]
    by_cases hgf : g = f
    · subst hgf
      rw [if_pos rfl, if_pos rfl, if_pos rfl,
        EvalFull_getD _ _ _ t ht, EvalFull_getD _ _ _ t ht]
      ring
    · rw [if_neg hgf, if_neg hgf, if_neg hgf]
      ring

theorem vec_sub_getD (a b : List Int) (i : Nat) (hia : i < a.length) (hib : i < b.length) :
    (vec_sub a b).getD i 0 = a.getD i 0 - b.getD i 0 := by
  simp [vec_sub, List.getD_eq_getElem?_getD, List.getElem?_zipWith, List.getElem?_eq_getElem,
    hia, hib, List.getElem?_eq_getElem (show i < (List.zipWith (· - ·) a b).length by simp; omega)]

theorem vec_scalar_mul_length (a : List Int) (s : Int) :
    (vec_scalar_mul a s).length = a.length := by
  simp [vec_scalar_mul]

theorem vec_scalar_mul_getD (a : List Int) (s : Int) (i : Nat) (hi : i < a.length) :
    (vec_scalar_mul a s).getD i 0 = a.getD i 0 * s := by
  simp [vec_scalar_mul, List.getD_eq_getElem?_getD, List.getElem?_map,
    List.getElem?_eq_getElem hi]

theorem joint_scalar_vector_product_length (L : Nat) (a0 a1 : Int) (v0 v1 : List Int)
    (m : SVMaterialDraws) (hv0 : v0.length = L) (hv1 : v1.length = L)
    (hB0 : m.B0.length = L) (hB1 : m.B1.length = L) (hRv : m.Rv.length = L) :
    (joint_scalar_vector_product a0 v0 a1 v1 m).1.length = L
    ∧ (joint_scalar_vector_product a0 v0 a1 v1 m).2.length = L := by
  unfold joint_scalar_vector_product generate_scalar_vector_material
    compute_secure_scalar_vector_product
  constructor <;> simp [vec_add, vec_sub, vec_scalar_mul] <;> omega

theorem retrieve_item_profile_shares_joint_length (j0 j1 : Int)
    (V0 V1 : List (List Int)) (d : LookupDraws) :
    (retrieve_item_profile_shares_joint j0 j1 V0 V1 d).1.length = (V0.headD []).length
    ∧ (retrieve_item_profile_shares_joint j0 j1 V0 V1 d).2.length = (V0.headD []).length := by
  unfold retrieve_item_profile_shares_joint
  constructor <;> simp

theorem protocol_step_assembly (prg : Nat → ChildSeed) (m n k : Nat)
    (U0M U1M V0M V1M : List (List Int)) (user jdx : Nat)
    (ip1 ip2 sc1 sc2 upd1 upd2 : List Int) (d1 d2 : Int) (key0 key1 : DPFKey)
    (hU0 : IsMatrix U0M m k) (hU1 : IsMatrix U1M m k)
    (hV0 : IsMatrix V0M n k) (hV1 : IsMatrix V1M n k)
    (huser : user < m) (hjn : jdx < n)
    (hip1 : ip1.length = k) (hip2 : ip2.length = k)
    (hsc1 : sc1.length = k) (hsc2 : sc2.length = k)
    (hupd1 : upd1.length = k) (hupd2 : upd2.length = k)
    (hipsum : vec_add ip1 ip2 = (mat_add V0M V1M).getD jdx [])
    (hdsum : d1 + d2 = vec_dot_product
      (vec_add (U0M.getD user []) (U1M.getD user [])) (vec_add ip1 ip2))
    (hscsum : vec_add sc1 sc2 = vec_scalar_mul (vec_add ip1 ip2) (d1 + d2))
    (hupdsum : vec_add upd1 upd2 = vec_scalar_mul
      (vec_add (U0M.getD user []) (U1M.getD user [])) (((0 : Int) - d1) + ((1 : Int) - d2)))
    (hkeyeval : ∀ (F : Int) (t : Nat), t < n →
      evalDPF prg { key0 with FCW := F } t n + evalDPF prg { key1 with FCW := F } t n
        = if t = jdx then F + (key0.FCW + key1.FCW - 0) else 0) :
    IsMatrix (U0M.set user (vec_sub (vec_add (U0M.getD user []) ip1) sc1)) m k
    ∧ IsMatrix (U1M.set user (vec_sub (vec_add (U1M.getD user []) ip2) sc2)) m k
    ∧ IsMatrix ((List.range k).foldl (item_update_step prg n key0 key1 upd1 upd2)
        (V0M, V1M)).1 n k
    ∧ IsMatrix ((List.range k).foldl (item_update_step prg n key0 key1 upd1 upd2)
        (V0M, V1M)).2 n k
    ∧ mat_add (U0M.set user (vec_sub (vec_add (U0M.getD user []) ip1) sc1))
        (U1M.set user (vec_sub (vec_add (U1M.getD user []) ip2) sc2))
      = (apply_cleartext_query (mat_add U0M U1M, mat_add V0M V1M) user jdx).1
    ∧ mat_add ((List.range k).foldl (item_update_step prg n key0 key1 upd1 upd2)
          (V0M, V1M)).1
        ((List.range k).foldl (item_update_step prg n key0 key1 upd1 upd2)
          (V0M, V1M)).2
      = (apply_cleartext_query (mat_add U0M U1M, mat_add V0M V1M) user jdx).2 := by
  have hn : 0 < n := by omega
  have hUP0len : (U0M.getD user []).length = k := IsMatrix_row hU0 _ huser
  have hUP1len : (U1M.getD user []).length = k := IsMatrix_row hU1 _ huser
  have hUc_row : (mat_add U0M U1M).getD user []
      = vec_add (U0M.getD user []) (U1M.getD user []) :=
    mat_add_getD U0M U1M _ (by rw [hU0.1]; omega) (by rw [hU1.1]; omega)
  have hVc_row : (mat_add V0M V1M).getD jdx [] = vec_add ip1 ip2 := hipsum.symm
  have hr0len : (vec_sub (vec_add (U0M.getD user []) ip1) sc1).length = k := by
    rw [vec_sub_length, vec_add_length, hUP0len, hip1, hsc1]
    omega
  have hr1len : (vec_sub (vec_add (U1M.getD user []) ip2) sc2).length = k := by
    rw [vec_sub_length, vec_add_length, hUP1len, hip2, hsc2]
    omega
  obtain ⟨hF1, hF2, hFentry⟩ := item_update_foldl_entry prg n k key0 key1 upd1 upd2
    (List.range k) V0M V1M hV0 hV1
  refine ⟨set_IsMatrix hU0 hr0len, set_IsMatrix hU1 hr1len, hF1, hF2, ?_, ?_⟩
  · simp only [apply_cleartext_query]
    rw [mat_add_set, hUc_row, hVc_row, ← hdsum]
    congr 1
    apply List.ext_getElem
    · rw [vec_add_length, hr0len, hr1len, vec_add_length, vec_add_length,
        vec_scalar_mul_length, vec_add_length, hUP0len, hUP1len, hip1, hip2]
      omega
    · intro g hg1 hg2
      have hgk : g < k := by
        rw [vec_add_length, hr0len, hr1len] at hg1
        omega
      have hscfact : sc1.getD g 0 + sc2.getD g 0
          = (ip1.getD g 0 + ip2.getD g 0) * (d1 + d2) := by
        have hh := congrArg (fun l => l.getD g 0) hscsum
        simp only at hh
        rw [vec_add_getD _ _ g (by omega) (by omega),
          vec_scalar_mul_getD _ _ g (by rw [vec_add_length]; omega),
          vec_add_getD _ _ g (by omega) (by omega)] at hh
        exact hh
      have e1 : (vec_add (vec_sub (vec_add (U0M.getD user []) ip1) sc1)
            (vec_sub (vec_add (U1M.getD user []) ip2) sc2)).getD g 0
          = ((U0M.getD user []).getD g 0 + ip1.getD g 0 - sc1.getD g 0)
            + ((U1M.getD user []).getD g 0 + ip2.getD g 0 - sc2.getD g 0) := by
        rw [vec_add_getD _ _ g (by omega) (by omega),
          vec_sub_getD _ _ g (by rw [vec_add_length]; omega) (by omega),
          vec_sub_getD _ _ g (by rw [vec_add_length]; omega) (by omega),
          vec_add_getD _ _ g (by omega) (by omega),
          vec_add_getD _ _ g (by omega) (by omega)]
      have e2 : (vec_add (vec_add (U0M.getD user []) (U1M.getD user []))
            (vec_scalar_mul (vec_add ip1 ip2) (1 - (d1 + d2)))).getD g 0
          = ((U0M.getD user []).getD g 0 + (U1M.getD user []).getD g 0)
            + (ip1.getD g 0 + ip2.getD g 0) * (1 - (d1 + d2)) := by
        rw [vec_add_getD _ _ g (by rw [vec_add_length]; omega)
            (by rw [vec_scalar_mul_length, vec_add_length]; omega),
          vec_add_getD _ _ g (by omega) (by omega),
          vec_scalar_mul_getD _ _ g (by rw [vec_add_length]; omega),
          vec_add_getD _ _ g (by omega) (by omega)]
      rw [getD_eq_getElem_of_lt _ _ _ hg1] at e1
      rw [getD_eq_getElem_of_lt _ _ _ hg2] at e2
      rw [e1, e2]
      linear_combination -hscfact
  · simp only [apply_cleartext_query]
    have hrowlen : (vec_add ((mat_add V0M V1M).getD jdx [])
        (vec_scalar_mul ((mat_add U0M U1M).getD user [])
          (1 - vec_dot_product ((mat_add U0M U1M).getD user [])
            ((mat_add V0M V1M).getD jdx [])))).length = k := by
      rw [vec_add_length, vec_scalar_mul_length, hUc_row, hVc_row, vec_add_length,
        vec_add_length, hUP0len, hUP1len, hip1, hip2]
      omega
    apply mat_eq_of_entries _ _ n k (mat_add_IsMatrix hF1 hF2)
      (set_IsMatrix (mat_add_IsMatrix hV0 hV1) hrowlen)
    intro t g ht hg
    have hL : ((mat_add ((List.range k).foldl (item_update_step prg n key0 key1 upd1 upd2)
            (V0M, V1M)).1
          ((List.range k).foldl (item_update_step prg n key0 key1 upd1 upd2)
            (V0M, V1M)).2).getD t []).getD g 0
        = (((List.range k).foldl (item_update_step prg n key0 key1 upd1 upd2)
            (V0M, V1M)).1.getD t []).getD g 0
          + (((List.range k).foldl (item_update_step prg n key0 key1 upd1 upd2)
            (V0M, V1M)).2.getD t []).getD g 0 := by
      rw [mat_add_getD _ _ t (by rw [hF1.1]; omega) (by rw [hF2.1]; omega),
        vec_add_getD _ _ g (by rw [IsMatrix_row hF1 t ht]; omega)
          (by rw [IsMatrix_row hF2 t ht]; omega)]
    rw [hL, hFentry t g ht hg]
    have hcount : (List.range k).count g = 1 :=
      List.count_eq_one_of_mem (List.nodup_range k) (List.mem_range.mpr hg)
    rw [hcount]
    rw [hkeyeval ((upd1.getD g 0 - key0.FCW) + (upd2.getD g 0 - key1.FCW)) t ht]
    rw [set_getD _ _ t _ (by rw [mat_add_length, hV0.1, hV1.1, min_self]; omega)]
    have hVtg : ((mat_add V0M V1M).getD t []).getD g 0
        = (V0M.getD t []).getD g 0 + (V1M.getD t []).getD g 0 := by
      rw [mat_add_getD _ _ t (by rw [hV0.1]; omega) (by rw [hV1.1]; omega),
        vec_add_getD _ _ g (by rw [IsMatrix_row hV0 t ht]; omega)
          (by rw [IsMatrix_row hV1 t ht]; omega)]
    have hUPDg : upd1.getD g 0 + upd2.getD g 0
        = ((U0M.getD user []).getD g 0 + (U1M.getD user []).getD g 0) * (1 - (d1 + d2)) := by
      have hh := congrArg (fun l => l.getD g 0) hupdsum
      simp only at hh
      rw [vec_add_getD _ _ g (by omega) (by omega),
        vec_scalar_mul_getD _ _ g (by rw [vec_add_length]; omega),
        vec_add_getD _ _ g (by omega) (by omega)] at hh
      rw [hh]
      ring
    by_cases htj : t = jdx
    · subst htj
      rw [if_pos rfl, if_pos rfl]
      have hrowg : (vec_add ((mat_add V0M V1M).getD t [])
            (vec_scalar_mul ((mat_add U0M U1M).getD user [])
              (1 - vec_dot_product ((mat_add U0M U1M).getD user [])
                ((mat_add V0M V1M).getD t [])))).getD g 0
          = (ip1.getD g 0 + ip2.getD g 0)
            + ((U0M.getD user []).getD g 0 + (U1M.getD user []).getD g 0)
              * (1 - (d1 + d2)) := by
        rw [hUc_row, hVc_row, ← hdsum]
        rw [vec_add_getD _ _ g (by rw [vec_add_length]; omega)
            (by rw [vec_scalar_mul_length, vec_add_length]; omega),
          vec_add_getD _ _ g (by omega) (by omega),
          vec_scalar_mul_getD _ _ g (by rw [vec_add_length]; omega),
          vec_add_getD _ _ g (by omega) (by omega)]
      rw [hrowg]
      have hVjg : ip1.getD g 0 + ip2.getD g 0
          = (V0M.getD t []).getD g 0 + (V1M.getD t []).getD g 0 := by
        have hh := congrArg (fun l => l.getD g 0) hipsum
        simp only at hh
        rw [vec_add_getD _ _ g (by omega) (by omega)] at hh
        rw [hh, mat_add_getD _ _ t (by rw [hV0.1]; omega) (by rw [hV1.1]; omega),
          vec_add_getD _ _ g (by rw [IsMatrix_row hV0 t ht]; omega)
            (by rw [IsMatrix_row hV1 t ht]; omega)]
      rw [hVjg]
      linear_combination hUPDg
    · rw [if_neg (fun hc : jdx = t => htj hc.symm), if_neg htj, hVtg]
      ring

theorem protocol_query_step_correct (prg : Nat → ChildSeed) (m n k : Nat)
    (st : ProtocolState) (q : QueryDraws)
    (hU0 : IsMatrix st.U0 m k) (hU1 : IsMatrix st.U1 m k)
    (hV0 : IsMatrix st.V0 n k) (hV1 : IsMatrix st.V1 n k)
    (hq : QueryOK q m n k) :
    IsMatrix (protocol_query_step prg n k st q).U0 m k
    ∧ IsMatrix (protocol_query_step prg n k st q).U1 m k
    ∧ IsMatrix (protocol_query_step prg n k st q).V0 n k
    ∧ IsMatrix (protocol_query_step prg n k st q).V1 n k
    ∧ mat_add (protocol_query_step prg n k st q).U0 (protocol_query_step prg n k st q).U1
      = (apply_cleartext_query (mat_add st.U0 st.U1, mat_add st.V0 st.V1)
          q.user_index q.item_index).1
    ∧ mat_add (protocol_query_step prg n k st q).V0 (protocol_query_step prg n k st q).V1
      = (apply_cleartext_query (mat_add st.U0 st.U1, mat_add st.V0 st.V1)
          q.user_index q.item_index).2 := by
  obtain ⟨huser, hjn, hlr, hlr0, hlmats, hdx0, hdy0, hdx1, hdy1,
    hs1b0, hs1b1, hs1rv, hs2b0, hs2b1, hs2rv⟩ := hq
  have hn : 0 < n := by omega
  have hUP0len : (st.U0.getD q.user_index []).length = k := IsMatrix_row hU0 _ huser
  have hUP1len : (st.U1.getD q.user_index []).length = k := IsMatrix_row hU1 _ huser
  have hfd : (st.V0.headD []).length = k := by
    rw [headD_eq_getD _ (by rw [hV0.1]; omega)]
    exact IsMatrix_row hV0 0 hn
  have hIPlen := retrieve_item_profile_shares_joint_length q.item_share0
      ((q.item_index : Int) - q.item_share0) st.V0 st.V1 q.lookup
  rw [hfd] at hIPlen
  have hG : IsMatrix (protocol_query_step prg n k st q).U0 m k
      ∧ IsMatrix (protocol_query_step prg n k st q).U1 m k
      ∧ IsMatrix (protocol_query_step prg n k st q).V0 n k
      ∧ IsMatrix (protocol_query_step prg n k st q).V1 n k
      ∧ mat_add (protocol_query_step prg n k st q).U0 (protocol_query_step prg n k st q).U1
        = (apply_cleartext_query (mat_add st.U0 st.U1, mat_add st.V0 st.V1)
            q.user_index q.item_index).1
      ∧ mat_add (protocol_query_step prg n k st q).V0 (protocol_query_step prg n k st q).V1
        = (apply_cleartext_query (mat_add st.U0 st.U1, mat_add st.V0 st.V1)
            q.user_index q.item_index).2 := by
    simp only [protocol_query_step, item_update_joint]
    refine protocol_step_assembly prg m n k st.U0 st.U1 st.V0 st.V1
      q.user_index q.item_index _ _ _ _ _ _
      (joint_inner_product (st.U0.getD q.user_index [])
        (retrieve_item_profile_shares_joint q.item_share0
          ((q.item_index : Int) - q.item_share0) st.V0 st.V1 q.lookup).1
        (st.U1.getD q.user_index [])
        (retrieve_item_profile_shares_joint q.item_share0
          ((q.item_index : Int) - q.item_share0) st.V0 st.V1 q.lookup).2
        q.dot_mat).1
      (joint_inner_product (st.U0.getD q.user_index [])
        (retrieve_item_profile_shares_joint q.item_share0
          ((q.item_index : Int) - q.item_share0) st.V0 st.V1 q.lookup).1
        (st.U1.getD q.user_index [])
        (retrieve_item_profile_shares_joint q.item_share0
          ((q.item_index : Int) - q.item_share0) st.V0 st.V1 q.lookup).2
        q.dot_mat).2
      _ _ hU0 hU1 hV0 hV1 huser hjn
      hIPlen.1 hIPlen.2 ?_ ?_ ?_ ?_ ?_ ?_ ?_ ?_ ?_
    · exact (joint_scalar_vector_product_length k _ _ _ _ q.sv_mat1
        hIPlen.1 hIPlen.2 hs1b0 hs1b1 hs1rv).1
    · exact (joint_scalar_vector_product_length k _ _ _ _ q.sv_mat1
        hIPlen.1 hIPlen.2 hs1b0 hs1b1 hs1rv).2
    · exact (joint_scalar_vector_product_length k _ _ _ _ q.sv_mat2
        hUP0len hUP1len hs2b0 hs2b1 hs2rv).1
    · exact (joint_scalar_vector_product_length k _ _ _ _ q.sv_mat2
        hUP0len hUP1len hs2b0 hs2b1 hs2rv).2
    · exact retrieve_item_profile_shares_joint_sum n k q.item_index q.item_share0
        ((q.item_index : Int) - q.item_share0) st.V0 st.V1 q.lookup
        hV0 hV1 hjn (by ring) hlr hlr0 hlmats
    · exact joint_inner_product_sum k _ _ _ _ q.dot_mat
        hUP0len hUP1len hIPlen.1 hIPlen.2 hdx0 hdy0 hdx1 hdy1
    · exact joint_scalar_vector_product_sum k _ _ _ _ q.sv_mat1
        hIPlen.1 hIPlen.2 hs1b0 hs1b1 hs1rv
    · exact joint_scalar_vector_product_sum k _ _ _ _ q.sv_mat2
        hUP0len hUP1len hs2b0 hs2b1 hs2rv
    · intro F t ht
      exact generateDPF_common_fcw_eval prg q.item_index 0 n q.gen_s0 q.gen_s1 q.gen_R
        F t hjn ht
  exact hG

theorem execute_protocol_joint_correct (prg : Nat → ChildSeed) (m n k : Nat) :
    ∀ (qs : List QueryDraws) (st : ProtocolState),
      IsMatrix st.U0 m k → IsMatrix st.U1 m k →
      IsMatrix st.V0 n k → IsMatrix st.V1 n k →
      (∀ q ∈ qs, QueryOK q m n k) →
      IsMatrix (execute_protocol_joint prg n k st qs).U0 m k
      ∧ IsMatrix (execute_protocol_joint prg n k st qs).U1 m k
      ∧ IsMatrix (execute_protocol_joint prg n k st qs).V0 n k
      ∧ IsMatrix (execute_protocol_joint prg n k st qs).V1 n k
      ∧ mat_add (execute_protocol_joint prg n k st qs).U0
          (execute_protocol_joint prg n k st qs).U1
        = (apply_cleartext_updates (mat_add st.U0 st.U1) (mat_add st.V0 st.V1)
            (qs.map (fun q => (q.user_index, q.item_index)))).1
      ∧ mat_add (execute_protocol_joint prg n k st qs).V0
          (execute_protocol_joint prg n k st qs).V1
        = (apply_cleartext_updates (mat_add st.U0 st.U1) (mat_add st.V0 st.V1)
            (qs.map (fun q => (q.user_index, q.item_index)))).2 := by
  intro qs
  induction qs with
  | nil =>
    intro st hU0 hU1 hV0 hV1 _
    exact ⟨hU0, hU1, hV0, hV1, rfl, rfl⟩
  | cons q qs ih =>
    intro st hU0 hU1 hV0 hV1 hqs
    obtain ⟨h1, h2, h3, h4, h5, h6⟩ :=
      protocol_query_step_correct prg m n k st q hU0 hU1 hV0 hV1
        (hqs q (List.mem_cons_self q qs))
    have hpair :
        (mat_add (protocol_query_step prg n k st q).U0 (protocol_query_step prg n k st q).U1,
         mat_add (protocol_query_step prg n k st q).V0 (protocol_query_step prg n k st q).V1)
        = apply_cleartext_query (mat_add st.U0 st.U1, mat_add st.V0 st.V1)
            q.user_index q.item_index := by
      rw [h5, h6]
    obtain ⟨g1, g2, g3, g4, g5, g6⟩ :=
      ih (protocol_query_step prg n k st q) h1 h2 h3 h4
        (fun p hp => hqs p (List.mem_cons_of_mem q hp))
    have hclear :
        apply_cleartext_updates (mat_add st.U0 st.U1) (mat_add st.V0 st.V1)
          ((q :: qs).map (fun p => (p.user_index, p.item_index)))
        = apply_cleartext_updates
            (mat_add (protocol_query_step prg n k st q).U0
              (protocol_query_step prg n k st q).U1)
            (mat_add (protocol_query_step prg n k st q).V0
              (protocol_query_step prg n k st q).V1)
            (qs.map (fun p => (p.user_index, p.item_index))) := by
      simp only [apply_cleartext_updates, List.map_cons, List.foldl_cons]
      rw [← hpair]
    refine ⟨g1, g2, g3, g4, ?_, ?_⟩
    · rw [hclear]; exact g5
    · rw [hclear]; exact g6

theorem save_share_add (a b : Int) :
    (save_share_u32 a + save_share_u32 b) % 2 ^ 32 = save_share_u32 (a + b) := by
  simp only [save_share_u32]
  have h : (2 : Int) ^ 32 = 4294967296 := by norm_num
  have h2 : (2 : Nat) ^ 32 = 4294967296 := by norm_num
  rw [h, h2]
  omega

theorem vec_save_add :
    ∀ (ra rb : List Int),
      List.zipWith (fun a b => (a + b) % 2 ^ 32)
        (ra.map save_share_u32) (rb.map save_share_u32)
      = (vec_add ra rb).map save_share_u32 := by
  intro ra
  induction ra with
  | nil => intro rb; simp [vec_add]
  | cons a as iha =>
    intro rb
    cases rb with
    | nil => simp [vec_add]
    | cons b bs =>
      simp only [vec_add, List.map_cons, List.zipWith_cons_cons]
      rw [save_share_add]
      exact congrArg (List.cons _) (iha bs)

theorem recombine_save :
    ∀ (A B : List (List Int)),
      recombine_u32 (save_matrix_u32 A) (save_matrix_u32 B)
      = save_matrix_u32 (mat_add A B) := by
  intro A
  induction A with
  | nil => intro B; simp [recombine_u32, save_matrix_u32, mat_add]
  | cons ra As ihA =>
    intro B
    cases B with
    | nil => simp [recombine_u32, save_matrix_u32, mat_add]
    | cons rb Bs =>
      simp only [recombine_u32, save_matrix_u32, mat_add, List.map_cons,
        List.zipWith_cons_cons]
      rw [vec_save_add]
      exact congrArg (List.cons _) (ihA Bs)

/-- C1: End-to-end simulation equivalence. For every pair of initial share
    matrices `U0, U1` (m×k) and `V0, V1` (n×k), and every stream of
    well-formed queries, after both servers run `execute_protocol` over all
    queries, the element-wise sum of the two servers' saved `uint32_t` U
    shares (and likewise V shares) equals, mod 2^32, the saved result of the
    cleartext iteration that for each query `(i, j)` sets
    `u_i ← u_i + v_j·(1 − ⟨u_i, v_j⟩)` and `v_j ← v_j + u_i_old·(1 − ⟨u_i, v_j⟩)`
    on `U0 + U1` and `V0 + V1`, rows not named in any query unchanged. -/
theorem execute_protocol_matches_cleartext (prg : Nat → ChildSeed) (m n k : Nat)
    (st : ProtocolState) (qs : List QueryDraws)
    (hU0 : IsMatrix st.U0 m k) (hU1 : IsMatrix st.U1 m k)
    (hV0 : IsMatrix st.V0 n k) (hV1 : IsMatrix st.V1 n k)
    (hqs : ∀ q ∈ qs, QueryOK q m n k) :
    recombine_u32 (save_matrix_u32 (execute_protocol_joint prg n k st qs).U0)
        (save_matrix_u32 (execute_protocol_joint prg n k st qs).U1)
      = save_matrix_u32 (apply_cleartext_updates (mat_add st.U0 st.U1)
          (mat_add st.V0 st.V1) (qs.map (fun q => (q.user_index, q.item_index)))).1
    ∧ recombine_u32 (save_matrix_u32 (execute_protocol_joint prg n k st qs).V0)
        (save_matrix_u32 (execute_protocol_joint prg n k st qs).V1)
      = save_matrix_u32 (apply_cleartext_updates (mat_add st.U0 st.U1)
          (mat_add st.V0 st.V1) (qs.map (fun q => (q.user_index, q.item_index)))).2 := by
  obtain ⟨_, _, _, _, h5, h6⟩ :=
    execute_protocol_joint_correct prg m n k qs st hU0 hU1 hV0 hV1 hqs
  constructor
  · rw [recombine_save, h5]
  · rw [recombine_save, h6]

/-- Concrete instance of C1: the hypotheses hold at `c1State`, `[c1Query]`
    with `m = 1`, `n = 2`, `k = 1`, and so does the conclusion. -/
theorem execute_protocol_matches_cleartext_witness :
    (IsMatrix c1State.U0 1 1 ∧ IsMatrix c1State.U1 1 1
      ∧ IsMatrix c1State.V0 2 1 ∧ IsMatrix c1State.V1 2 1
      ∧ ∀ q ∈ [c1Query], QueryOK q 1 2 1)
    ∧ (recombine_u32 (save_matrix_u32 (execute_protocol_joint PRG 2 1 c1State [c1Query]).U0)
          (save_matrix_u32 (execute_protocol_joint PRG 2 1 c1State [c1Query]).U1)
        = save_matrix_u32 (apply_cleartext_updates (mat_add c1State.U0 c1State.U1)
            (mat_add c1State.V0 c1State.V1)
            ([c1Query].map (fun q => (q.user_index, q.item_index)))).1
      ∧ recombine_u32 (save_matrix_u32 (execute_protocol_joint PRG 2 1 c1State [c1Query]).V0)
          (save_matrix_u32 (execute_protocol_joint PRG 2 1 c1State [c1Query]).V1)
        = save_matrix_u32 (apply_cleartext_updates (mat_add c1State.U0 c1State.U1)
            (mat_add c1State.V0 c1State.V1)
            ([c1Query].map (fun q => (q.user_index, q.item_index)))).2) :=
  ⟨⟨by unfold IsMatrix; decide, by unfold IsMatrix; decide,
    by unfold IsMatrix; decide, by unfold IsMatrix; decide,
    by intro q hq; rw [List.mem_singleton] at hq; subst hq; unfold QueryOK; decide⟩,
   execute_protocol_matches_cleartext PRG 1 2 1 c1State [c1Query]
     (by unfold IsMatrix; decide) (by unfold IsMatrix; decide)
     (by unfold IsMatrix; decide) (by unfold IsMatrix; decide)
     (by intro q hq; rw [List.mem_singleton] at hq; subst hq; unfold QueryOK; decide)⟩
